import Mathlib

/-!
Verification development for the openboundary IR compiler core.

This file shallowly embeds the data model and algorithms of the repository's
`internal/ir`, `internal/openapi`, `internal/validator` and `internal/cache`
packages and proves/refutes the frozen specification claims about them.

Modelling conventions:
* Go components are referenced by pointer; pointer identity is modelled by the
  component `id` string (component IDs are unique in every built IR, and the
  symbol table is always populated with `comp.ID` as the symbol name).
* Go maps iterated with `range` have unspecified order; the model fixes an
  iteration order by keeping components in a list.  All proved properties are
  stated so that they hold for every such order.
* Go `nil` slices versus empty slices are modelled by `Option (List String)`
  (`none` = nil, `some []` = present but empty); `range` over a `nil` slice
  iterates zero times, which the model reproduces with `Option.getD · []`.
* Recursive DFS is modelled with an explicit fuel parameter; all theorems are
  proved under the well-formedness assumption (edges point into the component
  set) that makes the fuel sufficient, so the fuel-exhaustion branch is
  unreachable in every situation the theorems speak about.
-/

/-- A dependency graph as used by `internal/ir/graph.go`: the component map of
an `IR`, reduced to the node identifiers (map iteration order fixed by the
list) and the `Dependencies` adjacency of each component. -/
structure Graph where
  nodes : List String
  deps : String → List String

/-- Well-formedness of an IR graph: component IDs are unique and every
dependency edge points to a component present in the IR (the spec invariant
"an edge never references a component absent from the IR"). -/
def Graph.WF (g : Graph) : Prop :=
  g.nodes.Nodup ∧ ∀ c ∈ g.nodes, ∀ d ∈ g.deps c, d ∈ g.nodes

/-- One dependency edge `a → b` (component `a` depends on `b`). -/
def Graph.Step (g : Graph) (a b : String) : Prop := b ∈ g.deps a

/-- Reachability along one or more dependency edges. -/
def Graph.Reaches (g : Graph) : String → String → Prop :=
  Relation.TransGen g.Step

/-- The dependency graph is acyclic: no component reaches itself. -/
def Graph.Acyclic (g : Graph) : Prop := ∀ x ∈ g.nodes, ¬ g.Reaches x x

/-- Model of `extractCycle` (graph.go): the suffix of `path` starting at the
first occurrence of `targetID`; `[]` when absent (Go returns nil). -/
def extractCycle : List String → String → List String
  | [], _ => []
  | x :: rest, t => if x = t then x :: rest else extractCycle rest t

/-- The mutable bookkeeping of `DetectCycles` (graph.go): the `visited` set,
the `inStack` set, the current `path`, and the accumulated `cycles`. -/
structure DCState where
  visited : List String
  inStack : List String
  path : List String
  cycles : List (List String)
deriving Repr, DecidableEq

/-- The dependency loop inside `dfs` (graph.go, DetectCycles): for each
dependency, recurse when unvisited (propagating `true` immediately), report a
cycle when the dependency is on the current path, otherwise skip.  The visitor
`f` is the recursive `dfs` call. -/
def foldVisit (f : DCState → String → DCState × Bool) :
    DCState → List String → DCState × Bool
  | s, [] => (s, false)
  | s, d :: ds =>
    if d ∈ s.visited then
      if d ∈ s.inStack then
        (⟨s.visited, s.inStack, s.path, s.cycles ++ [extractCycle s.path d]⟩, true)
      else foldVisit f s ds
    else
      let r := f s d
      if r.2 then r else foldVisit f r.1 ds

/-- Model of `dfs` (graph.go, DetectCycles), fuelled.  On entry the node is
marked visited/on-stack and pushed on the path; after the dependency loop
returns `false` the node is popped again.  A `true` return (cycle found)
leaves `inStack` and `path` dirty, exactly as the Go early return does. -/
def dcVisit (g : Graph) : Nat → DCState → String → DCState × Bool
  | 0, s, _ => (s, false)
  | fuel + 1, s, c =>
    let s1 : DCState := ⟨c :: s.visited, c :: s.inStack, s.path ++ [c], s.cycles⟩
    let r := foldVisit (dcVisit g fuel) s1 (g.deps c)
    if r.2 then r
    else (⟨r.1.visited, r.1.inStack.erase c, r.1.path.dropLast, r.1.cycles⟩, false)

/-- Model of `(*IR).DetectCycles` (graph.go): run `dfs` from every not yet
visited component, threading the shared bookkeeping, and return the collected
cycles. -/
def DetectCycles (g : Graph) : List (List String) :=
  (g.nodes.foldl
    (fun s c => if c ∈ s.visited then s else (dcVisit g g.nodes.length s c).1)
    ⟨[], [], [], []⟩).cycles

/-- Model of `visit` (graph.go, TopologicalSort), fuelled: post-order DFS
emission over the `visited` set and the `result` list. -/
def tsVisit (g : Graph) : Nat → List String × List String → String →
    List String × List String
  | 0, s, _ => s
  | fuel + 1, (v, r), c =>
    if c ∈ v then (v, r)
    else
      let s := (g.deps c).foldl (tsVisit g fuel) (c :: v, r)
      (s.1, s.2 ++ [c])

/-- Model of `(*IR).TopologicalSort` (graph.go): re-run cycle detection and
fail with the discovered cycles (`CycleError`), otherwise emit components in
post-order. -/
def TopologicalSort (g : Graph) : Except (List (List String)) (List String) :=
  let cycles := DetectCycles g
  if cycles.isEmpty then
    Except.ok (g.nodes.foldl (tsVisit g g.nodes.length) ([], [])).2
  else Except.error cycles

/-- A finish list `F` is well-ordered when every dependency of an element
appears strictly before it (in the part of the list preceding it). -/
def Good (g : Graph) (F : List String) : Prop :=
  ∀ p x q, F = p ++ x :: q → ∀ d ∈ g.deps x, d ∈ p

/-- Count of graph nodes not yet visited; the fuel measure for the DFS. -/
def unvisited (g : Graph) (v : List String) : Nat :=
  (g.nodes.filter (fun x => decide (x ∉ v))).length

lemma filter_notmem_length_mono {l v w : List String} (h : v ⊆ w) :
    (l.filter (fun x => decide (x ∉ w))).length ≤
      (l.filter (fun x => decide (x ∉ v))).length := by
  refine (List.monotone_filter_right l ?_).length_le
  intro a ha
  simp only [decide_eq_true_eq] at ha ⊢
  exact fun hav => ha (h hav)

lemma filter_notmem_cons_lt {l v : List String} {c : String}
    (hc : c ∈ l) (hcv : c ∉ v) :
    (l.filter (fun x => decide (x ∉ c :: v))).length <
      (l.filter (fun x => decide (x ∉ v))).length := by
  induction l with
  | nil => cases hc
  | cons a l ih =>
    by_cases hac : a = c
    · subst hac
      rw [List.filter_cons_of_neg (by simp), List.filter_cons_of_pos (by simpa)]
      exact Nat.lt_succ_of_le
        (filter_notmem_length_mono (List.subset_cons_self _ _))
    · have hcl : c ∈ l := by
        rcases List.mem_cons.1 hc with h | h
        · exact absurd h.symm hac
        · exact h
      by_cases hav : a ∈ v
      · rw [List.filter_cons_of_neg (by simpa using fun (_ : ¬a = c) => hav),
          List.filter_cons_of_neg (by simpa using hav)]
        exact ih hcl
      · have hacv : a ∉ c :: v := by simp [hac, hav]
        rw [List.filter_cons_of_pos (by simpa using And.intro hac hav),
          List.filter_cons_of_pos (by simpa using hav)]
        exact Nat.succ_lt_succ (ih hcl)

lemma unvisited_le_length (g : Graph) (v : List String) :
    unvisited g v ≤ g.nodes.length :=
  List.length_filter_le _ _

lemma unvisited_mono (g : Graph) {v w : List String} (h : v ⊆ w) :
    unvisited g w ≤ unvisited g v :=
  filter_notmem_length_mono h

lemma unvisited_pos (g : Graph) {v : List String} {c : String}
    (hc : c ∈ g.nodes) (hcv : c ∉ v) : 0 < unvisited g v := by
  have : c ∈ g.nodes.filter (fun x => decide (x ∉ v)) :=
    List.mem_filter.2 ⟨hc, by simpa using hcv⟩
  exact List.length_pos.2 (List.ne_nil_of_mem this)

lemma unvisited_cons_lt (g : Graph) {v : List String} {c : String}
    (hc : c ∈ g.nodes) (hcv : c ∉ v) :
    unvisited g (c :: v) < unvisited g v :=
  filter_notmem_cons_lt hc hcv

lemma unvisited_eq_zero (g : Graph) {v : List String}
    (h : unvisited g v = 0) : ∀ c ∈ g.nodes, c ∈ v := by
  intro c hc
  by_contra hcv
  have := unvisited_pos g hc hcv
  omega

/-- The empty list is trivially well-ordered. -/
lemma good_nil (g : Graph) : Good g [] := by
  intro p x q h
  exact absurd h (by simp)

/-- Appending a node all of whose dependencies are already emitted preserves
well-ordering. -/
lemma good_snoc {g : Graph} {F : List String} {c : String}
    (hF : Good g F) (hdeps : ∀ d ∈ g.deps c, d ∈ F) (hc : c ∉ F) :
    Good g (F ++ [c]) := by
  intro p x q heq d hd
  rcases q.eq_nil_or_concat with rfl | ⟨q0, e, rfl⟩
  · obtain ⟨hFp, hxc⟩ := List.append_inj' heq (by simp)
    have hcx : c = x := by simpa using hxc
    subst hcx
    subst hFp
    exact hdeps d hd
  · have heq' : F ++ [c] = (p ++ x :: q0) ++ [e] := by simpa using heq
    obtain ⟨hF2, _⟩ := List.append_inj' heq' (by simp)
    exact hF p x q0 hF2 d hd

/-- In a duplicate-free list, the split at an element is unique. -/
lemma split_unique {α : Type} {F p q p' q' : List α} {x : α}
    (hnd : F.Nodup) (h1 : F = p ++ x :: q) (h2 : F = p' ++ x :: q') :
    p = p' ∧ q = q' := by
  subst h1
  induction p generalizing p' with
  | nil =>
    cases p' with
    | nil =>
      simp only [List.nil_append] at h2
      exact ⟨rfl, (List.cons_eq_cons.1 h2).2⟩
    | cons b t =>
      simp only [List.nil_append, List.cons_append] at h2
      obtain ⟨rfl, h3⟩ := List.cons_eq_cons.1 h2
      have hx : x ∈ t ++ x :: q' := by simp
      rw [← h3] at hx
      exact absurd hx (List.nodup_cons.1 hnd).1
  | cons a t ih =>
    cases p' with
    | nil =>
      simp only [List.cons_append, List.nil_append] at h2
      obtain ⟨hax, h3⟩ := List.cons_eq_cons.1 h2
      have hnd2 : a ∉ t ++ x :: q := (List.nodup_cons.1 (by simpa using hnd)).1
      refine absurd ?_ hnd2
      rw [hax]
      simp
    | cons b t' =>
      simp only [List.cons_append] at h2
      obtain ⟨rfl, h3⟩ := List.cons_eq_cons.1 h2
      have hnd' : (t ++ x :: q).Nodup :=
        (List.nodup_cons.1 (by simpa using hnd)).2
      obtain ⟨h4, h5⟩ := ih hnd' h3
      exact ⟨by rw [h4], h5⟩

/-- A node `y` occurs strictly before `x` in the list `F`. -/
def Bfr (F : List String) (y x : String) : Prop :=
  ∃ p q, F = p ++ x :: q ∧ y ∈ p

lemma bfr_mem_left {F : List String} {y x : String} (h : Bfr F y x) :
    y ∈ F := by
  obtain ⟨p, q, rfl, hy⟩ := h
  exact List.mem_append_left _ hy

lemma bfr_trans {F : List String} (hnd : F.Nodup) {z y x : String}
    (h1 : Bfr F z y) (h2 : Bfr F y x) : Bfr F z x := by
  obtain ⟨p1, q1, he1, hz⟩ := h1
  obtain ⟨p2, q2, he2, hy⟩ := h2
  obtain ⟨a, b, hab⟩ := List.append_of_mem hy
  have he2' : F = a ++ y :: (b ++ x :: q2) := by
    rw [he2, hab]
    simp
  obtain ⟨hpa, _⟩ := split_unique hnd he1 he2'
  refine ⟨p2, q2, he2, ?_⟩
  rw [hab]
  exact List.mem_append_left _ (hpa ▸ hz)

lemma bfr_irrefl {F : List String} (hnd : F.Nodup) {x : String} :
    ¬ Bfr F x x := by
  rintro ⟨p, q, rfl, hx⟩
  exact List.disjoint_of_nodup_append hnd hx (by simp)

/-- Along a well-ordered finish list, reachability only runs backwards. -/
lemma reaches_bfr {g : Graph} {F : List String} (hnd : F.Nodup)
    (hG : Good g F) {x y : String} (h : g.Reaches x y) (hx : x ∈ F) :
    Bfr F y x := by
  induction h with
  | single hs =>
    obtain ⟨p, q, heq⟩ := List.append_of_mem hx
    exact ⟨p, q, heq, hG p _ q heq _ hs⟩
  | tail hr hs ih =>
    have hbF := bfr_mem_left ih
    obtain ⟨p, q, heq⟩ := List.append_of_mem hbF
    exact bfr_trans hnd ⟨p, q, heq, hG p _ q heq _ hs⟩ ih

/-- A duplicate-free, well-ordered finish list covering all nodes certifies
acyclicity. -/
lemma good_acyclic {g : Graph} {F : List String} (hnd : F.Nodup)
    (hG : Good g F) (hcov : ∀ x ∈ g.nodes, x ∈ F) : g.Acyclic := by
  intro x hx hr
  exact bfr_irrefl hnd (reaches_bfr hnd hG hr (hcov x hx))

/-- Invariant of the topological-sort DFS: the visited set is exactly the
emitted list `r` plus the grey (on the current recursion path) set `gr`; both
are duplicate-free node subsets, and the emitted list is well-ordered. -/
def TInv (g : Graph) (v r gr : List String) : Prop :=
  (∀ x, x ∈ v ↔ x ∈ r ∨ x ∈ gr) ∧ (r ++ gr).Nodup ∧
    (∀ x ∈ r, x ∈ g.nodes) ∧ (∀ x ∈ gr, x ∈ g.nodes) ∧ Good g r

/-- Specification of one visitor call, abstracted over the visitor so that the
same lemma serves the nested dependency fold and the top-level loop. -/
def TSpec (g : Graph) (gr : List String) (bound : Nat)
    (f : List String × List String → String → List String × List String) :
    Prop :=
  ∀ v r d, TInv g v r gr → (∀ x ∈ gr, g.Reaches x d) → d ∈ g.nodes →
    unvisited g v ≤ bound →
    ∃ v' t, f (v, r) d = (v', r ++ t) ∧ TInv g v' (r ++ t) gr ∧
      d ∈ r ++ t ∧ v ⊆ v' ∧ unvisited g v' ≤ unvisited g v

/-- Folding a visitor satisfying `TSpec` over a list of nodes preserves the
invariant and emits every listed node. -/
lemma tsFold_spec (g : Graph) (gr : List String) (bound : Nat)
    (f : List String × List String → String → List String × List String)
    (hf : TSpec g gr bound f) :
    ∀ (ds v r : List String), TInv g v r gr →
      (∀ d ∈ ds, (∀ x ∈ gr, g.Reaches x d) ∧ d ∈ g.nodes) →
      unvisited g v ≤ bound →
      ∃ v' t, List.foldl f (v, r) ds = (v', r ++ t) ∧ TInv g v' (r ++ t) gr ∧
        (∀ d ∈ ds, d ∈ r ++ t) ∧ v ⊆ v' ∧
        unvisited g v' ≤ unvisited g v := by
  intro ds
  induction ds with
  | nil =>
    intro v r hinv _ _
    exact ⟨v, [], by simp, by simpa, by simp, fun x h => h, le_refl _⟩
  | cons d ds ih =>
    intro v r hinv hds hb
    obtain ⟨v1, t1, he1, hinv1, hd1, hsub1, hu1⟩ :=
      hf v r d hinv (hds d (by simp)).1 (hds d (by simp)).2 hb
    obtain ⟨v2, t2, he2, hinv2, hd2, hsub2, hu2⟩ :=
      ih v1 (r ++ t1) hinv1 (fun e he => hds e (by simp [he]))
        (le_trans hu1 hb)
    refine ⟨v2, t1 ++ t2, ?_, ?_, ?_, fun x h => hsub2 (hsub1 h),
      le_trans hu2 hu1⟩
    · simp only [List.foldl_cons, he1, he2, List.append_assoc]
    · simpa [List.append_assoc] using hinv2
    · intro e he
      rcases List.mem_cons.1 he with rfl | he'
      · rw [← List.append_assoc]
        exact List.mem_append_left _ hd1
      · simpa [List.append_assoc] using hd2 e he'

/-- The fuelled DFS visitor of the topological sort meets its specification on
well-formed acyclic graphs, for any grey set reaching the visited node. -/
lemma tsVisit_spec (g : Graph) (hwf : g.WF) (hac : g.Acyclic) :
    ∀ fuel gr, TSpec g gr fuel (tsVisit g fuel) := by
  intro fuel
  induction fuel with
  | zero =>
    intro gr v r d hinv hgr hd hb
    have hdv : d ∈ v := unvisited_eq_zero g (Nat.le_zero.1 hb) d hd
    have hdr : d ∈ r := by
      rcases (hinv.1 d).1 hdv with h | h
      · exact h
      · exact absurd (hgr d h) (hac d hd)
    exact ⟨v, [], by simp [tsVisit], by simpa, by simpa, fun x h => h,
      le_refl _⟩
  | succ n ih =>
    intro gr v r d hinv hgr hd hb
    by_cases hdv : d ∈ v
    · have hdr : d ∈ r := by
        rcases (hinv.1 d).1 hdv with h | h
        · exact h
        · exact absurd (hgr d h) (hac d hd)
      exact ⟨v, [], by simp [tsVisit, hdv], by simpa, by simpa, fun x h => h,
        le_refl _⟩
    · have hdr : d ∉ r := fun h => hdv ((hinv.1 d).2 (Or.inl h))
      have hdgr : d ∉ gr := fun h => hdv ((hinv.1 d).2 (Or.inr h))
      have hinv1 : TInv g (d :: v) r (d :: gr) := by
        refine ⟨?_, ?_, hinv.2.2.1, ?_, hinv.2.2.2.2⟩
        · intro x
          have := hinv.1 x
          simp only [List.mem_cons] at *
          tauto
        · have : (r ++ d :: gr).Nodup ↔ (d :: (r ++ gr)).Nodup :=
            List.perm_middle.symm.nodup_iff.symm
          refine this.2 (List.nodup_cons.2 ⟨?_, hinv.2.1⟩)
          simp only [List.mem_append]
          rintro (h | h)
          · exact hdr h
          · exact hdgr h
        · intro x hx
          rcases List.mem_cons.1 hx with rfl | hx'
          · exact hd
          · exact hinv.2.2.2.1 x hx'
      have hreach : ∀ e ∈ g.deps d, (∀ x ∈ d :: gr, g.Reaches x e) ∧
          e ∈ g.nodes := by
        intro e he
        refine ⟨?_, hwf.2 d hd e he⟩
        intro x hx
        rcases List.mem_cons.1 hx with rfl | hx'
        · exact Relation.TransGen.single he
        · exact Relation.TransGen.tail (hgr x hx') he
      have hbound : unvisited g (d :: v) ≤ n := by
        have hlt := unvisited_cons_lt g hd hdv
        omega
      obtain ⟨v2, t2, he2, hinv2, hdall, hsub2, hu2⟩ :=
        tsFold_spec g (d :: gr) n (tsVisit g n) (ih (d :: gr))
          (g.deps d) (d :: v) r hinv1 hreach hbound
      have hdR2 : d ∉ r ++ t2 := by
        intro h
        exact List.disjoint_of_nodup_append hinv2.2.1 h (by simp)
      refine ⟨v2, t2 ++ [d], ?_, ?_, by simp, ?_, ?_⟩
      · show tsVisit g (n + 1) (v, r) d = _
        simp only [tsVisit, if_neg hdv, he2, List.append_assoc]
      · refine ⟨?_, ?_, ?_,
          fun x hx => hinv2.2.2.2.1 x (List.mem_cons_of_mem _ hx), ?_⟩
        · intro x
          have := hinv2.1 x
          simp only [List.mem_append, List.mem_cons,
            List.mem_singleton] at *
          tauto
        · have heq : (r ++ (t2 ++ [d])) ++ gr = (r ++ t2) ++ d :: gr := by
            simp
          rw [heq]
          exact hinv2.2.1
        · intro x hx
          simp only [List.mem_append, List.mem_singleton] at hx
          rcases hx with h | h | rfl
          · exact hinv2.2.2.1 x (List.mem_append_left _ h)
          · exact hinv2.2.2.1 x (List.mem_append_right _ h)
          · exact hd
        · have : Good g ((r ++ t2) ++ [d]) :=
            good_snoc hinv2.2.2.2.2 hdall hdR2
          simpa [List.append_assoc] using this
      · exact fun x h => hsub2 (List.mem_cons_of_mem _ h)
      · exact le_trans hu2
          (unvisited_mono g (List.subset_cons_self _ _))

/-- Invariant of the cycle-detection DFS: visited is exactly finished (`F`)
plus on-stack; both are duplicate-free node subsets and the finished list is
well-ordered. -/
def DCInv (g : Graph) (s : DCState) (F : List String) : Prop :=
  (∀ x, x ∈ s.visited ↔ x ∈ F ∨ x ∈ s.inStack) ∧ (F ++ s.inStack).Nodup ∧
    (∀ x ∈ F, x ∈ g.nodes) ∧ (∀ x ∈ s.inStack, x ∈ g.nodes) ∧ Good g F

/-- Specification of a cycle-detection visitor call on an unvisited node:
a `true` return certifies a genuine cycle and strictly grows the cycle list;
a `false` return restores stack and path, keeps the cycle list, and finishes
the node. -/
def DCSpec (g : Graph) (bound : Nat)
    (f : DCState → String → DCState × Bool) : Prop :=
  ∀ s c F, DCInv g s F → (∀ x ∈ s.inStack, g.Reaches x c) → c ∈ g.nodes →
    c ∉ s.visited → unvisited g s.visited ≤ bound →
    ((f s c).2 = true → (∃ z ∈ g.nodes, g.Reaches z z) ∧
        s.cycles.length < ((f s c).1).cycles.length) ∧
    ((f s c).2 = false →
        ((f s c).1).cycles = s.cycles ∧ ((f s c).1).inStack = s.inStack ∧
        ((f s c).1).path = s.path ∧
        ∃ t, DCInv g (f s c).1 (F ++ t) ∧ c ∈ F ++ t ∧
          s.visited ⊆ ((f s c).1).visited ∧
          unvisited g ((f s c).1).visited ≤ unvisited g s.visited)

/-- The dependency loop satisfies the analogous specification when the
visitor does. -/
lemma foldVisit_spec (g : Graph) (bound : Nat)
    (f : DCState → String → DCState × Bool) (hf : DCSpec g bound f) :
    ∀ (ds : List String) (s : DCState) (F : List String),
      DCInv g s F →
      (∀ d ∈ ds, (∀ x ∈ s.inStack, g.Reaches x d) ∧ d ∈ g.nodes) →
      unvisited g s.visited ≤ bound →
      ((foldVisit f s ds).2 = true → (∃ z ∈ g.nodes, g.Reaches z z) ∧
          s.cycles.length < ((foldVisit f s ds).1).cycles.length) ∧
      ((foldVisit f s ds).2 = false →
          ((foldVisit f s ds).1).cycles = s.cycles ∧
          ((foldVisit f s ds).1).inStack = s.inStack ∧
          ((foldVisit f s ds).1).path = s.path ∧
          ∃ t, DCInv g (foldVisit f s ds).1 (F ++ t) ∧
            (∀ d ∈ ds, d ∈ F ++ t) ∧
            s.visited ⊆ ((foldVisit f s ds).1).visited ∧
            unvisited g ((foldVisit f s ds).1).visited ≤
              unvisited g s.visited) := by
  intro ds
  induction ds with
  | nil =>
    intro s F hinv _ _
    refine ⟨by simp [foldVisit], fun _ => ?_⟩
    exact ⟨rfl, rfl, rfl, [], by simpa, by simp, fun x h => h, le_refl _⟩
  | cons d ds ih =>
    intro s F hinv hds hb
    by_cases hdv : d ∈ s.visited
    · by_cases hdst : d ∈ s.inStack
      · have hres : foldVisit f s (d :: ds) =
            (⟨s.visited, s.inStack, s.path,
              s.cycles ++ [extractCycle s.path d]⟩, true) := by
          simp [foldVisit, hdv, hdst]
        rw [hres]
        refine ⟨fun _ => ⟨⟨d, (hds d (by simp)).2, ?_⟩, by simp⟩,
          fun h => by simp at h⟩
        exact (hds d (by simp)).1 d hdst
      · have hres : foldVisit f s (d :: ds) = foldVisit f s ds := by
          simp [foldVisit, hdv, hdst]
        rw [hres]
        have hdF : d ∈ F := by
          rcases (hinv.1 d).1 hdv with h | h
          · exact h
          · exact absurd h hdst
        obtain ⟨h1, h2⟩ := ih s F hinv (fun e he => hds e (by simp [he])) hb
        refine ⟨h1, fun hfalse => ?_⟩
        obtain ⟨hc, hst, hp, t, hinv', hall, hsub, hu⟩ := h2 hfalse
        refine ⟨hc, hst, hp, t, hinv', ?_, hsub, hu⟩
        intro e he
        rcases List.mem_cons.1 he with rfl | he'
        · exact List.mem_append_left _ hdF
        · exact hall e he'
    · have hspec := hf s d F hinv (hds d (by simp)).1 (hds d (by simp)).2
        hdv hb
      by_cases hr2 : (f s d).2
      · have hres : foldVisit f s (d :: ds) = f s d := by
          simp [foldVisit, hdv, hr2]
        rw [hres]
        exact ⟨fun _ => hspec.1 hr2, fun h => absurd hr2 (by simp [h])⟩
      · have hres : foldVisit f s (d :: ds) = foldVisit f (f s d).1 ds := by
          simp [foldVisit, hdv, hr2]
        rw [hres]
        obtain ⟨hc1, hst1, hp1, t1, hinv1, hd1, hsub1, hu1⟩ :=
          hspec.2 (by simpa using hr2)
        obtain ⟨h1, h2⟩ := ih (f s d).1 (F ++ t1) hinv1
          (fun e he => ⟨by rw [hst1]; exact (hds e (by simp [he])).1,
            (hds e (by simp [he])).2⟩)
          (le_trans hu1 hb)
        constructor
        · intro htrue
          obtain ⟨hcyc, hlen⟩ := h1 htrue
          exact ⟨hcyc, by rw [← hc1]; exact hlen⟩
        · intro hfalse
          obtain ⟨hc2, hst2, hp2, t2, hinv2, hall2, hsub2, hu2⟩ := h2 hfalse
          refine ⟨by rw [hc2, hc1], by rw [hst2, hst1], by rw [hp2, hp1],
            t1 ++ t2, ?_, ?_, fun x h => hsub2 (hsub1 h),
            le_trans hu2 hu1⟩
          · simpa [List.append_assoc] using hinv2
          · intro e he
            rcases List.mem_cons.1 he with rfl | he'
            · rw [← List.append_assoc]
              exact List.mem_append_left _ hd1
            · simpa [List.append_assoc] using hall2 e he'

/-- The fuelled cycle-detection visitor meets its specification on
well-formed graphs. -/
lemma dcVisit_spec (g : Graph) (hwf : g.WF) :
    ∀ fuel, DCSpec g fuel (dcVisit g fuel) := by
  intro fuel
  induction fuel with
  | zero =>
    intro s c F hinv hgr hc hcv hb
    have := unvisited_pos g hc hcv
    omega
  | succ n ih =>
    intro s c F hinv hgr hc hcv hb
    have hcF : c ∉ F := fun h => hcv ((hinv.1 c).2 (Or.inl h))
    have hcst : c ∉ s.inStack := fun h => hcv ((hinv.1 c).2 (Or.inr h))
    have hinv1 : DCInv g
        ⟨c :: s.visited, c :: s.inStack, s.path ++ [c], s.cycles⟩ F := by
      refine ⟨?_, ?_, hinv.2.2.1, ?_, hinv.2.2.2.2⟩
      · intro x
        have := hinv.1 x
        simp only [List.mem_cons] at *
        tauto
      · show (F ++ c :: s.inStack).Nodup
        have hperm : (F ++ c :: s.inStack).Nodup ↔
            (c :: (F ++ s.inStack)).Nodup :=
          List.perm_middle.symm.nodup_iff.symm
        refine hperm.2 (List.nodup_cons.2 ⟨?_, hinv.2.1⟩)
        simp only [List.mem_append]
        rintro (h | h)
        · exact hcF h
        · exact hcst h
      · intro x hx
        rcases List.mem_cons.1 hx with rfl | hx'
        · exact hc
        · exact hinv.2.2.2.1 x hx'
    have hreach : ∀ e ∈ g.deps c,
        (∀ x ∈ (⟨c :: s.visited, c :: s.inStack, s.path ++ [c],
            s.cycles⟩ : DCState).inStack, g.Reaches x e) ∧ e ∈ g.nodes := by
      intro e he
      refine ⟨?_, hwf.2 c hc e he⟩
      intro x hx
      rcases List.mem_cons.1 hx with rfl | hx'
      · exact Relation.TransGen.single he
      · exact Relation.TransGen.tail (hgr x hx') he
    have hbound : unvisited g (⟨c :: s.visited, c :: s.inStack,
        s.path ++ [c], s.cycles⟩ : DCState).visited ≤ n := by
      have := unvisited_cons_lt g hc hcv
      show unvisited g (c :: s.visited) ≤ n
      omega
    have key := foldVisit_spec g n (dcVisit g n) ih (g.deps c)
      ⟨c :: s.visited, c :: s.inStack, s.path ++ [c], s.cycles⟩ F
      hinv1 hreach hbound
    rcases hfv : foldVisit (dcVisit g n)
        ⟨c :: s.visited, c :: s.inStack, s.path ++ [c], s.cycles⟩
        (g.deps c) with ⟨rs, rb⟩
    rw [hfv] at key
    obtain ⟨hT, hF⟩ := key
    have hunfold : dcVisit g (n + 1) s c =
        if rb = true then (rs, rb)
        else (⟨rs.visited, rs.inStack.erase c, rs.path.dropLast,
          rs.cycles⟩, false) := by
      show (if (foldVisit (dcVisit g n)
            ⟨c :: s.visited, c :: s.inStack, s.path ++ [c], s.cycles⟩
            (g.deps c)).2 = true
          then foldVisit (dcVisit g n)
            ⟨c :: s.visited, c :: s.inStack, s.path ++ [c], s.cycles⟩
            (g.deps c)
          else (⟨(foldVisit (dcVisit g n)
              ⟨c :: s.visited, c :: s.inStack, s.path ++ [c], s.cycles⟩
              (g.deps c)).1.visited,
            (foldVisit (dcVisit g n)
              ⟨c :: s.visited, c :: s.inStack, s.path ++ [c], s.cycles⟩
              (g.deps c)).1.inStack.erase c,
            (foldVisit (dcVisit g n)
              ⟨c :: s.visited, c :: s.inStack, s.path ++ [c], s.cycles⟩
              (g.deps c)).1.path.dropLast,
            (foldVisit (dcVisit g n)
              ⟨c :: s.visited, c :: s.inStack, s.path ++ [c], s.cycles⟩
              (g.deps c)).1.cycles⟩, false)) = _
      rw [hfv]
    cases rb with
    | true =>
      rw [hunfold]
      simp only [if_true]
      refine ⟨fun _ => ?_, fun h => by simp at h⟩
      obtain ⟨hcyc, hlen⟩ := hT rfl
      exact ⟨hcyc, by simpa using hlen⟩
    | false =>
      rw [hunfold]
      simp only [Bool.false_eq_true, if_false]
      obtain ⟨hc2, hst2, hp2, t, hinv2, hall, hsub, hu⟩ := hF rfl
      simp only at hc2 hst2 hp2
      refine ⟨fun h => by simp at h, fun _ => ?_⟩
      have hstrip : rs.inStack.erase c = s.inStack := by
        rw [hst2]
        exact List.erase_cons_head c s.inStack
      have hpath : rs.path.dropLast = s.path := by
        rw [hp2]
        exact List.dropLast_concat
      have hcFt : c ∉ F ++ t := by
        intro h
        refine List.disjoint_of_nodup_append hinv2.2.1 h ?_
        rw [hst2]
        simp
      have hcrs : c ∈ rs.visited := hsub (List.mem_cons_self _ _)
      refine ⟨hc2, hstrip, hpath, t ++ [c], ?_, by simp, ?_, ?_⟩
      · refine ⟨?_, ?_, ?_, ?_, ?_⟩
        · show ∀ x, x ∈ rs.visited ↔
            x ∈ F ++ (t ++ [c]) ∨ x ∈ rs.inStack.erase c
          simp only [hstrip]
          intro x
          have h1 := hinv2.1 x
          rw [hst2] at h1
          constructor
          · intro hx
            rcases h1.1 hx with h | h
            · rcases List.mem_append.1 h with h' | h'
              · exact Or.inl (List.mem_append_left _ h')
              · exact Or.inl
                  (List.mem_append_right _ (List.mem_append_left _ h'))
            · rcases List.mem_cons.1 h with rfl | h'
              · exact Or.inl (List.mem_append_right _
                  (List.mem_append_right _ (by simp)))
              · exact Or.inr h'
          · rintro (hx | hx)
            · rcases List.mem_append.1 hx with h' | h'
              · exact h1.2 (Or.inl (List.mem_append_left _ h'))
              · rcases List.mem_append.1 h' with h2 | h2
                · exact h1.2 (Or.inl (List.mem_append_right _ h2))
                · have hxc : x = c := by simpa using h2
                  subst hxc
                  exact hcrs
            · exact h1.2 (Or.inr (List.mem_cons_of_mem _ hx))
        · show ((F ++ (t ++ [c])) ++ rs.inStack.erase c).Nodup
          rw [hstrip]
          have heq : (F ++ (t ++ [c])) ++ s.inStack =
              (F ++ t) ++ c :: s.inStack := by simp
          rw [heq, ← hst2]
          exact hinv2.2.1
        · intro x hx
          simp only [List.mem_append, List.mem_singleton] at hx
          rcases hx with h | h | rfl
          · exact hinv2.2.2.1 x (List.mem_append_left _ h)
          · exact hinv2.2.2.1 x (List.mem_append_right _ h)
          · exact hc
        · show ∀ x ∈ rs.inStack.erase c, x ∈ g.nodes
          simp only [hstrip]
          exact hinv.2.2.2.1
        · show Good g (F ++ (t ++ [c]))
          have hG : Good g ((F ++ t) ++ [c]) :=
            good_snoc hinv2.2.2.2.2 hall hcFt
          simpa [List.append_assoc] using hG
      · show s.visited ⊆ rs.visited
        intro x hx
        exact hsub (List.mem_cons_of_mem _ hx)
      · show unvisited g rs.visited ≤ unvisited g s.visited
        refine le_trans hu ?_
        exact unvisited_mono g (List.subset_cons_self _ _)

/-- The cycle list only ever grows during the dependency loop. -/
lemma foldVisit_cycles_mono (f : DCState → String → DCState × Bool)
    (hf : ∀ s c, ∃ u, ((f s c).1).cycles = s.cycles ++ u) :
    ∀ (ds : List String) (s : DCState),
      ∃ u, ((foldVisit f s ds).1).cycles = s.cycles ++ u := by
  intro ds
  induction ds with
  | nil => exact fun s => ⟨[], by simp [foldVisit]⟩
  | cons d ds ih =>
    intro s
    by_cases hdv : d ∈ s.visited
    · by_cases hdst : d ∈ s.inStack
      · exact ⟨[extractCycle s.path d], by simp [foldVisit, hdv, hdst]⟩
      · obtain ⟨u, hu⟩ := ih s
        exact ⟨u, by simpa [foldVisit, hdv, hdst] using hu⟩
    · obtain ⟨u1, hu1⟩ := hf s d
      by_cases hr2 : (f s d).2
      · exact ⟨u1, by simpa [foldVisit, hdv, hr2] using hu1⟩
      · obtain ⟨u2, hu2⟩ := ih (f s d).1
        refine ⟨u1 ++ u2, ?_⟩
        rw [show foldVisit f s (d :: ds) = foldVisit f (f s d).1 ds by
          simp [foldVisit, hdv, hr2]]
        rw [hu2, hu1, List.append_assoc]

/-- The cycle list only ever grows during a DFS run. -/
lemma dcVisit_cycles_mono (g : Graph) :
    ∀ (fuel : Nat) (s : DCState) (c : String),
      ∃ u, ((dcVisit g fuel s c).1).cycles = s.cycles ++ u := by
  intro fuel
  induction fuel with
  | zero => exact fun s c => ⟨[], by simp [dcVisit]⟩
  | succ n ih =>
    intro s c
    obtain ⟨u, hu⟩ := foldVisit_cycles_mono (dcVisit g n) ih (g.deps c)
      ⟨c :: s.visited, c :: s.inStack, s.path ++ [c], s.cycles⟩
    rcases hfv : foldVisit (dcVisit g n)
        ⟨c :: s.visited, c :: s.inStack, s.path ++ [c], s.cycles⟩
        (g.deps c) with ⟨rs, rb⟩
    rw [hfv] at hu
    have hunfold : dcVisit g (n + 1) s c =
        if rb = true then (rs, rb)
        else (⟨rs.visited, rs.inStack.erase c, rs.path.dropLast,
          rs.cycles⟩, false) := by
      show (if (foldVisit (dcVisit g n)
            ⟨c :: s.visited, c :: s.inStack, s.path ++ [c], s.cycles⟩
            (g.deps c)).2 = true
          then foldVisit (dcVisit g n)
            ⟨c :: s.visited, c :: s.inStack, s.path ++ [c], s.cycles⟩
            (g.deps c)
          else (⟨(foldVisit (dcVisit g n)
              ⟨c :: s.visited, c :: s.inStack, s.path ++ [c], s.cycles⟩
              (g.deps c)).1.visited,
            (foldVisit (dcVisit g n)
              ⟨c :: s.visited, c :: s.inStack, s.path ++ [c], s.cycles⟩
              (g.deps c)).1.inStack.erase c,
            (foldVisit (dcVisit g n)
              ⟨c :: s.visited, c :: s.inStack, s.path ++ [c], s.cycles⟩
              (g.deps c)).1.path.dropLast,
            (foldVisit (dcVisit g n)
              ⟨c :: s.visited, c :: s.inStack, s.path ++ [c], s.cycles⟩
              (g.deps c)).1.cycles⟩, false)) = _
      rw [hfv]
    cases rb with
    | true => exact ⟨u, by rw [hunfold]; simpa using hu⟩
    | false => exact ⟨u, by rw [hunfold]; simpa using hu⟩

/-- The cycle list only ever grows across the top-level DFS loop of
`DetectCycles`. -/
lemma dcLoop_cycles_mono (g : Graph) :
    ∀ (ds : List String) (s : DCState),
      ∃ u, (List.foldl (fun s c => if c ∈ s.visited then s
          else (dcVisit g g.nodes.length s c).1) s ds).cycles =
        s.cycles ++ u := by
  intro ds
  induction ds with
  | nil => exact fun s => ⟨[], by simp⟩
  | cons d ds ih =>
    intro s
    by_cases hdv : d ∈ s.visited
    · obtain ⟨u, hu⟩ := ih s
      exact ⟨u, by simpa [hdv] using hu⟩
    · obtain ⟨u1, hu1⟩ := dcVisit_cycles_mono g g.nodes.length s d
      obtain ⟨u2, hu2⟩ := ih (dcVisit g g.nodes.length s d).1
      refine ⟨u1 ++ u2, ?_⟩
      simp only [List.foldl_cons, if_neg hdv]
      rw [hu2, hu1, List.append_assoc]

/-- Main run lemma for the top-level DFS loop: starting from a clean state,
either the run stays clean, finishing every processed node, or a genuine
cycle exists and the cycle list has strictly grown. -/
lemma dcLoop_spec (g : Graph) (hwf : g.WF) :
    ∀ (ds : List String), (∀ c ∈ ds, c ∈ g.nodes) →
      ∀ (s : DCState) (F : List String), s.inStack = [] → s.path = [] →
      DCInv g s F →
      (let s' := List.foldl (fun s c => if c ∈ s.visited then s
          else (dcVisit g g.nodes.length s c).1) s ds
       (s'.cycles = s.cycles ∧ s'.inStack = [] ∧ s'.path = [] ∧
          ∃ t, DCInv g s' (F ++ t) ∧ ∀ c ∈ ds, c ∈ F ++ t) ∨
        ((∃ z ∈ g.nodes, g.Reaches z z) ∧
          s.cycles.length < s'.cycles.length)) := by
  intro ds
  induction ds with
  | nil =>
    intro _ s F hst hp hinv
    exact Or.inl ⟨rfl, hst, hp, [], by simpa using hinv, by simp⟩
  | cons c ds ih =>
    intro hds s F hst hp hinv
    by_cases hcv : c ∈ s.visited
    · have hcF : c ∈ F := by
        rcases (hinv.1 c).1 hcv with h | h
        · exact h
        · rw [hst] at h
          cases h
      have hres := ih (fun e he => hds e (by simp [he])) s F hst hp hinv
      simp only [List.foldl_cons, if_pos hcv]
      rcases hres with ⟨h1, h2, h3, t, h4, h5⟩ | hres
      · refine Or.inl ⟨h1, h2, h3, t, h4, ?_⟩
        intro e he
        rcases List.mem_cons.1 he with rfl | he'
        · exact List.mem_append_left _ hcF
        · exact h5 e he'
      · exact Or.inr hres
    · have hspec := dcVisit_spec g hwf g.nodes.length s c F hinv
        (by rw [hst]; intro x hx; cases hx) (hds c (by simp)) hcv
        (unvisited_le_length g _)
      simp only [List.foldl_cons, if_neg hcv]
      by_cases hr2 : (dcVisit g g.nodes.length s c).2
      · obtain ⟨hcyc, hlen⟩ := hspec.1 hr2
        obtain ⟨u, hu⟩ := dcLoop_cycles_mono g ds
          (dcVisit g g.nodes.length s c).1
        refine Or.inr ⟨hcyc, ?_⟩
        rw [hu]
        calc s.cycles.length
            < ((dcVisit g g.nodes.length s c).1).cycles.length := hlen
          _ ≤ (((dcVisit g g.nodes.length s c).1).cycles ++ u).length := by
              simp
      · obtain ⟨hc2, hst2, hp2, t1, hinv1, hcm, hsub1, hu1⟩ :=
          hspec.2 (by simpa using hr2)
        have hres := ih (fun e he => hds e (by simp [he]))
          (dcVisit g g.nodes.length s c).1 (F ++ t1)
          (by rw [hst2, hst]) (by rw [hp2, hp]) hinv1
        rcases hres with ⟨h1, h2, h3, t2, h4, h5⟩ | ⟨hcyc, hlen⟩
        · refine Or.inl ⟨by rw [h1, hc2], h2, h3, t1 ++ t2, ?_, ?_⟩
          · simpa [List.append_assoc] using h4
          · intro e he
            rcases List.mem_cons.1 he with rfl | he'
            · rw [← List.append_assoc]
              exact List.mem_append_left _ hcm
            · simpa [List.append_assoc] using h5 e he'
        · refine Or.inr ⟨hcyc, ?_⟩
          rw [hc2] at hlen
          exact hlen

/-- On a well-formed acyclic graph, `DetectCycles` reports nothing. -/
lemma detectCycles_eq_nil_of_acyclic (g : Graph) (hwf : g.WF)
    (hac : g.Acyclic) : DetectCycles g = [] := by
  have hinit : DCInv g ⟨[], [], [], []⟩ [] := by
    refine ⟨by simp, by simp, by simp, by simp, good_nil g⟩
  have := dcLoop_spec g hwf g.nodes (fun c hc => hc) ⟨[], [], [], []⟩ []
    rfl rfl hinit
  rcases this with ⟨h1, _⟩ | ⟨⟨z, hz, hr⟩, _⟩
  · exact h1
  · exact absurd hr (hac z hz)

/-- On a well-formed graph, an empty `DetectCycles` result certifies
acyclicity. -/
lemma acyclic_of_detectCycles_eq_nil (g : Graph) (hwf : g.WF)
    (h : DetectCycles g = []) : g.Acyclic := by
  have hinit : DCInv g ⟨[], [], [], []⟩ [] := by
    refine ⟨by simp, by simp, by simp, by simp, good_nil g⟩
  have hrun := dcLoop_spec g hwf g.nodes (fun c hc => hc) ⟨[], [], [], []⟩ []
    rfl rfl hinit
  rcases hrun with ⟨_, hst, _, t, hinv, hcov⟩ | ⟨_, hlen⟩
  · have hnd : ([] ++ t : List String).Nodup := by
      have := hinv.2.1
      rw [hst] at this
      simpa using this
    refine good_acyclic (g := g) (F := [] ++ t) (by simpa using hnd)
      ?_ ?_
    · have := hinv.2.2.2.2
      simpa using this
    · intro x hx
      exact hcov x hx
  · rw [show (List.foldl (fun s c => if c ∈ s.visited then s
        else (dcVisit g g.nodes.length s c).1) ⟨[], [], [], []⟩
        g.nodes).cycles = DetectCycles g from rfl, h] at hlen
    simp at hlen

/-- A graph without any dependency edges is acyclic. -/
lemma acyclic_of_no_deps (g : Graph) (h : ∀ x, g.deps x = []) :
    g.Acyclic := by
  intro x _ hr
  cases hr with
  | single hs =>
    rw [Graph.Step, h] at hs
    cases hs
  | tail _ hs =>
    rw [Graph.Step, h] at hs
    cases hs

/-- C1: for every IR whose dependency graph is acyclic, `TopologicalSort`
succeeds and returns a permutation of the IR's components such that for every
edge `A → B` (A depends on B), B appears before A in the result. -/
theorem topologicalSort_correct (g : Graph) (hwf : g.WF) (hac : g.Acyclic) :
    ∃ res, TopologicalSort g = Except.ok res ∧ res.Perm g.nodes ∧
      ∀ a b, a ∈ g.nodes → b ∈ g.deps a →
        ∃ p q, res = p ++ a :: q ∧ b ∈ p := by
  have hdet : DetectCycles g = [] := detectCycles_eq_nil_of_acyclic g hwf hac
  have hinit : TInv g [] [] [] := ⟨by simp, by simp, by simp, by simp,
    good_nil g⟩
  obtain ⟨v', t, heq, hinv', hall, _, _⟩ :=
    tsFold_spec g [] g.nodes.length (tsVisit g g.nodes.length)
      (tsVisit_spec g hwf hac g.nodes.length []) g.nodes [] [] hinit
      (fun d hd => ⟨fun x hx => absurd hx (List.not_mem_nil x), hd⟩)
      (unvisited_le_length g [])
  refine ⟨[] ++ t, ?_, ?_, ?_⟩
  · rw [show TopologicalSort g = (if (DetectCycles g).isEmpty then
        Except.ok (g.nodes.foldl (tsVisit g g.nodes.length) ([], [])).2
      else Except.error (DetectCycles g)) from rfl, hdet]
    simp only [List.isEmpty_nil, if_true]
    rw [heq]
  · have hnd : ([] ++ t : List String).Nodup := by
      have := hinv'.2.1
      simpa using this
    refine (List.perm_ext_iff_of_nodup hnd hwf.1).2 ?_
    intro a
    constructor
    · intro ha
      exact hinv'.2.2.1 a ha
    · intro ha
      exact hall a ha
  · intro a b ha hb
    obtain ⟨p, q, hsplit⟩ := List.append_of_mem (hall a ha)
    exact ⟨p, q, hsplit, hinv'.2.2.2.2 p a q hsplit b hb⟩

/-- Witness graph for C1: two components, no dependency edges. -/
def wGraphAcyclic : Graph := ⟨["a", "b"], fun _ => []⟩

/-- C1 witness: the theorem applies to a concrete acyclic graph. -/
theorem topologicalSort_correct_witness :
    wGraphAcyclic.WF ∧
      ∃ res, TopologicalSort wGraphAcyclic = Except.ok res ∧
        res.Perm wGraphAcyclic.nodes ∧
        ∀ a b, a ∈ wGraphAcyclic.nodes → b ∈ wGraphAcyclic.deps a →
          ∃ p q, res = p ++ a :: q ∧ b ∈ p :=
  ⟨⟨by decide, by decide⟩,
    topologicalSort_correct wGraphAcyclic ⟨by decide, by decide⟩
      (acyclic_of_no_deps wGraphAcyclic fun _ => rfl)⟩

/-- C2: `DetectCycles` is non-empty exactly when the dependency graph has a
cycle, and `TopologicalSort` fails (with a `CycleError` carrying the
discovered cycles) exactly when `DetectCycles` is non-empty. -/
theorem detectCycles_correct (g : Graph) (hwf : g.WF) :
    (DetectCycles g ≠ [] ↔ ∃ z ∈ g.nodes, g.Reaches z z) ∧
      ((∃ e, TopologicalSort g = Except.error e) ↔ DetectCycles g ≠ []) ∧
      (∀ e, TopologicalSort g = Except.error e → e = DetectCycles g) := by
  refine ⟨⟨?_, ?_⟩, ?_, ?_⟩
  · intro hne
    by_contra hno
    push_neg at hno
    exact hne (detectCycles_eq_nil_of_acyclic g hwf hno)
  · rintro ⟨z, hz, hr⟩ hnil
    exact absurd hr (acyclic_of_detectCycles_eq_nil g hwf hnil z hz)
  · constructor
    · rintro ⟨e, he⟩ hnil
      rw [show TopologicalSort g = (if (DetectCycles g).isEmpty then
          Except.ok (g.nodes.foldl (tsVisit g g.nodes.length) ([], [])).2
        else Except.error (DetectCycles g)) from rfl, hnil] at he
      simp at he
    · intro hne
      refine ⟨DetectCycles g, ?_⟩
      rw [show TopologicalSort g = (if (DetectCycles g).isEmpty then
          Except.ok (g.nodes.foldl (tsVisit g g.nodes.length) ([], [])).2
        else Except.error (DetectCycles g)) from rfl]
      rw [if_neg (by simpa [List.isEmpty_iff] using hne)]
  · intro e he
    rw [show TopologicalSort g = (if (DetectCycles g).isEmpty then
        Except.ok (g.nodes.foldl (tsVisit g g.nodes.length) ([], [])).2
      else Except.error (DetectCycles g)) from rfl] at he
    by_cases hnil : (DetectCycles g).isEmpty
    · rw [if_pos hnil] at he
      cases he
    · rw [if_neg hnil] at he
      cases he
      rfl

/-- Witness graph for C2: the two-node cycle `A → B → A`. -/
def wGraphCycle : Graph :=
  ⟨["A", "B"], fun s => if s = "A" then ["B"] else if s = "B" then ["A"]
    else []⟩

/-- C2 witness: the theorem applies to the concrete two-node cycle. -/
theorem detectCycles_correct_witness :
    wGraphCycle.WF ∧
      ((DetectCycles wGraphCycle ≠ [] ↔
          ∃ z ∈ wGraphCycle.nodes, wGraphCycle.Reaches z z) ∧
        ((∃ e, TopologicalSort wGraphCycle = Except.error e) ↔
          DetectCycles wGraphCycle ≠ []) ∧
        (∀ e, TopologicalSort wGraphCycle = Except.error e →
          e = DetectCycles wGraphCycle)) :=
  ⟨⟨by decide, by decide⟩, detectCycles_correct wGraphCycle
    ⟨by decide, by decide⟩⟩

/-- Splitting a character list at every occurrence of a separator
(`strings.Split` semantics: the empty input yields one empty field). -/
def splitChars (sep : Char) : List Char → List (List Char)
  | [] => [[]]
  | c :: cs =>
    let r := splitChars sep cs
    if c = sep then [] :: r
    else
      match r with
      | [] => [[c]]
      | g :: gs => (c :: g) :: gs

/-- Model of splitting a Go string on `':'` (`strings.Split`/`SplitN`
building block; structurally recursive so that concrete bindings
evaluate). -/
def splitOnColon (s : String) : List String :=
  (splitChars ':' s.data).map (fun l => String.mk l)

/-- Model of `strings.Join(parts, ":")`. -/
def joinColon : List String → String
  | [] => ""
  | [x] => x
  | x :: xs => x ++ ":" ++ joinColon xs

/-- Model of `strings.HasPrefix(s, "/")`. -/
def startsWithSlash (s : String) : Bool :=
  match s.data with
  | [] => false
  | c :: _ => c = '/'

/-- The HTTP method whitelist of `ParseBinding` (openapi/parser.go). -/
def validMethods : List String :=
  ["GET", "POST", "PUT", "PATCH", "DELETE", "HEAD", "OPTIONS"]

/-- Parse errors of `ParseBinding` (openapi/parser.go), one constructor per
`fmt.Errorf` message. -/
inductive PBErr where
  | empty
  | format (raw : String)
  | badMethod (m : String)
  | badPath (p : String)
deriving Repr, DecidableEq

/-- Model of an OpenAPI operation (openapi package); only the fields the IR
compiler core reads are kept. -/
structure Operation where
  method : String
  path : String
deriving Repr, DecidableEq

/-- Model of a parsed OpenAPI document: the operation map keyed by
`"METHOD:/path"`. -/
structure Document where
  operations : List (String × Operation)
deriving Repr, DecidableEq

/-- Model of `OperationKey` (openapi/parser.go). -/
def OperationKey (method path : String) : String := method ++ ":" ++ path

/-- Model of `ParseBinding` (openapi/parser.go): split a `binds_to` value at
its first two colons into server ID, method, and path; validate the method
against the whitelist and require the path to start with `/`.  Splitting on
all colons and re-joining everything after the second reproduces the
index-based Go code exactly. -/
def ParseBinding (bindsTo : String) :
    Except PBErr (String × String × String) :=
  if bindsTo = "" then Except.error PBErr.empty
  else
    match splitOnColon bindsTo with
    | a :: b :: c :: rest =>
      let path := joinColon (c :: rest)
      if b ∈ validMethods then
        if startsWithSlash path then Except.ok (a, b, path)
        else Except.error (PBErr.badPath path)
      else Except.error (PBErr.badMethod b)
    | _ => Except.error (PBErr.format bindsTo)

/-- Component kinds (ir/ir.go): the closed enumeration. -/
inductive Kind where
  | httpServer
  | middleware
  | postgres
  | usecase
deriving Repr, DecidableEq

/-- The Go string value of a kind (ir/ir.go constants). -/
def Kind.toGoString : Kind → String
  | Kind.httpServer => "http.server"
  | Kind.middleware => "middleware"
  | Kind.postgres => "postgres"
  | Kind.usecase => "usecase"

/-- Model of `ParseKind` (ir/ir.go). -/
def ParseKind (s : String) : Except String Kind :=
  if s = "http.server" then Except.ok Kind.httpServer
  else if s = "middleware" then Except.ok Kind.middleware
  else if s = "postgres" then Except.ok Kind.postgres
  else if s = "usecase" then Except.ok Kind.usecase
  else Except.error ("unknown kind: " ++ s)

/-- Model of `HTTPServerSpec` (ir/ir.go).  Go string/int zero values are kept;
`Option (List String)` distinguishes a nil slice (`none`) from a present
list; `parsedOpenAPI` is the pointer populated during build phase 2. -/
structure HTTPServerSpec where
  framework : String
  port : Int
  openapi : String
  middleware : Option (List String)
  dependsOn : Option (List String)
  parsedOpenAPI : Option Document
deriving Repr, DecidableEq

/-- Model of `MiddlewareSpec` (ir/ir.go). -/
structure MiddlewareSpec where
  provider : String
  config : String
  model : String
  policy : String
  dependsOn : Option (List String)
deriving Repr, DecidableEq

/-- Model of `PostgresSpec` (ir/ir.go). -/
structure PostgresSpec where
  provider : String
  schema : String
deriving Repr, DecidableEq

/-- Model of `Binding` (ir/ir.go): a parsed `binds_to` value; the resolved
operation is kept by its lookup key. -/
structure Binding where
  serverID : String
  method : String
  path : String
  operation : Option Operation
deriving Repr, DecidableEq

/-- Model of `UsecaseSpec` (ir/ir.go). -/
structure UsecaseSpec where
  bindsTo : String
  middleware : Option (List String)
  goal : String
  actor : String
  preconditions : Option (List String)
  acceptanceCriteria : Option (List String)
  postconditions : Option (List String)
  binding : Option Binding
deriving Repr, DecidableEq

/-- Model of `Component` (ir/ir.go).  Dependency/dependent pointers are
modelled by component IDs. -/
structure Component where
  id : String
  kind : Kind
  dependencies : List String
  dependents : List String
  httpServer : Option HTTPServerSpec
  middleware : Option MiddlewareSpec
  postgres : Option PostgresSpec
  usecase : Option UsecaseSpec
deriving Repr, DecidableEq

/-- Edge types (ir/ir.go). -/
inductive EdgeType where
  | ref
  | dependency
  | middleware
  | binding
deriving Repr, DecidableEq

/-- Model of `Edge` (ir/ir.go); the two pointers are modelled by IDs. -/
structure EdgeM where
  fromId : String
  toId : String
  typ : EdgeType
deriving Repr, DecidableEq

/-- Model of `SymbolTable` (ir/symbols.go): the name-to-symbol map as an
association list.  A Go `Symbol` stores `{Name, Kind, Component}`; every
`Define` call site passes the component whose `ID` equals the name, so the
component pointer is recovered by looking the name up in the IR's component
map and only the kind is stored here. -/
abbrev SymbolTable : Type := List (String × Kind)

/-- Model of `(*SymbolTable).Lookup` (ir/symbols.go). -/
def STLookup (t : SymbolTable) (name : String) : Option Kind :=
  List.lookup name t

/-- Model of `(*SymbolTable).Define` (ir/symbols.go): fails when the name is
already registered (returning the table unchanged, as the Go method leaves
the map untouched), otherwise inserts. -/
def STDefine (t : SymbolTable) (name : String) (k : Kind) :
    SymbolTable × Option Kind :=
  match List.lookup name t with
  | some existing => (t, some existing)
  | none => (t ++ [(name, k)], none)

/-- Model of `IR` (ir/ir.go): the component map (iteration order fixed by the
list, later duplicate IDs replacing earlier entries like Go map assignment),
the edge list, and the symbol table. -/
structure IRm where
  components : List Component
  edges : List EdgeM
  symbols : SymbolTable
deriving Repr, DecidableEq

/-- Component lookup by ID, modelling Go map indexing / pointer identity. -/
def IRm.find (i : IRm) (id : String) : Option Component :=
  i.components.find? (fun c => c.id == id)

/-- The dependency graph induced by an IR: nodes are the component IDs, the
adjacency is each component's `Dependencies` list (graph.go walks these
pointers). -/
def IRm.toGraph (i : IRm) : Graph :=
  ⟨i.components.map (fun c => c.id),
    fun id => match i.components.find? (fun c => c.id == id) with
      | some c => c.dependencies
      | none => []⟩

/-- Untyped component spec (the raw YAML map) after Go type assertions: each
recognized key is `some` when present with the asserted type, `none`
otherwise (absent or mistyped keys are equivalent in builder.go).  String
lists carry the result of `toStringSlice`. -/
structure RawSpec where
  framework : Option String := none
  port : Option Int := none
  openapi : Option String := none
  middleware : Option (List String) := none
  dependsOn : Option (List String) := none
  provider : Option String := none
  config : Option String := none
  model : Option String := none
  policy : Option String := none
  schema : Option String := none
  bindsTo : Option String := none
  goal : Option String := none
  actor : Option String := none
  preconditions : Option (List String) := none
  acceptanceCriteria : Option (List String) := none
  postconditions : Option (List String) := none
deriving Repr, DecidableEq

/-- Model of `parser.Component` (parser/ast.go): `{id, kind, spec}`. -/
structure RawComponent where
  id : String
  kind : String
  spec : RawSpec
deriving Repr, DecidableEq

/-- Builder errors (builder.go and symbols.go), one constructor per
`fmt.Errorf` site, each carrying the identifiers the message names. -/
inductive BuildErr where
  | unknownKind (id kind : String)
  | duplicateSymbol (name : String) (existing : Kind)
  | openAPIParseFailed (id path : String)
  | unresolvedRef (ref fromId : String)
  | invalidBindsTo (id : String) (e : PBErr)
  | serverNotFound (id server : String)
  | notAnHTTPServer (id server : String)
  | operationNotFound (id opKey server : String)
deriving Repr, DecidableEq

/-- Model of `parseHTTPServerSpec` (builder.go): absent fields keep Go zero
values. -/
def parseHTTPServerSpec (r : RawSpec) : HTTPServerSpec :=
  { framework := r.framework.getD ""
    port := r.port.getD 0
    openapi := r.openapi.getD ""
    middleware := r.middleware
    dependsOn := r.dependsOn
    parsedOpenAPI := none }

/-- Model of `parseMiddlewareSpec` (builder.go). -/
def parseMiddlewareSpec (r : RawSpec) : MiddlewareSpec :=
  { provider := r.provider.getD ""
    config := r.config.getD ""
    model := r.model.getD ""
    policy := r.policy.getD ""
    dependsOn := r.dependsOn }

/-- Model of `parsePostgresSpec` (builder.go). -/
def parsePostgresSpec (r : RawSpec) : PostgresSpec :=
  { provider := r.provider.getD ""
    schema := r.schema.getD "" }

/-- Model of `parseUsecaseSpec` (builder.go). -/
def parseUsecaseSpec (r : RawSpec) : UsecaseSpec :=
  { bindsTo := r.bindsTo.getD ""
    middleware := r.middleware
    goal := r.goal.getD ""
    actor := r.actor.getD ""
    preconditions := r.preconditions
    acceptanceCriteria := r.acceptanceCriteria
    postconditions := r.postconditions
    binding := none }

/-- Model of the component construction in Build phase 1 plus
`parseComponentSpec` (builder.go): exactly the variant selected by the kind
is populated; dependencies, dependents, binding and parsed contract start
empty. -/
def mkComponent (id : String) (k : Kind) (r : RawSpec) : Component :=
  { id := id
    kind := k
    dependencies := []
    dependents := []
    httpServer := if k = Kind.httpServer then some (parseHTTPServerSpec r)
      else none
    middleware := if k = Kind.middleware then some (parseMiddlewareSpec r)
      else none
    postgres := if k = Kind.postgres then some (parsePostgresSpec r)
      else none
    usecase := if k = Kind.usecase then some (parseUsecaseSpec r)
      else none }

/-- Go map assignment `ir.Components[id] = comp`: replace an existing entry
or add a new one. -/
def upsert (comps : List Component) (c : Component) : List Component :=
  if comps.any (fun x => x.id == c.id) then
    comps.map (fun x => if x.id == c.id then c else x)
  else comps ++ [c]

/-- State of Build phase 1. -/
structure P1State where
  components : List Component
  symbols : SymbolTable
  errs : List BuildErr
deriving Repr, DecidableEq

/-- One iteration of Build phase 1 (builder.go lines 34-58): parse the kind
(unknown kind: record the error and skip), build the typed component, store
it in the component map, and define its symbol (duplicate: record the
error). -/
def phase1Step (st : P1State) (rc : RawComponent) : P1State :=
  match ParseKind rc.kind with
  | Except.error _ =>
    { st with errs := st.errs ++ [BuildErr.unknownKind rc.id rc.kind] }
  | Except.ok k =>
    let comps := upsert st.components (mkComponent rc.id k rc.spec)
    let d := STDefine st.symbols rc.id k
    match d.2 with
    | none => { components := comps, symbols := d.1, errs := st.errs }
    | some existing =>
      { components := comps, symbols := d.1,
        errs := st.errs ++ [BuildErr.duplicateSymbol rc.id existing] }

/-- Build phase 1 over the whole raw component list. -/
def phase1 (spec : List RawComponent) : P1State :=
  spec.foldl phase1Step ⟨[], [], []⟩

/-- Pointer update of one component in the map. -/
def updateComp (i : IRm) (id : String) (f : Component → Component) : IRm :=
  { i with components :=
      i.components.map (fun c => if c.id == id then f c else c) }

/-- One iteration of `parseOpenAPISpecs` (builder.go, phase 2): for an
`http.server` component with a contract path, delegate to the parser
collaborator `pf` (file reading modelled as an oracle); on failure record an
error and leave the contract unattached. -/
def phase2Step (pf : String → Option Document) (i : IRm) (id : String) :
    IRm × List BuildErr :=
  match i.find id with
  | none => (i, [])
  | some c =>
    if c.kind = Kind.httpServer then
      match c.httpServer with
      | none => (i, [])
      | some s =>
        if s.openapi = "" then (i, [])
        else
          match pf s.openapi with
          | none => (i, [BuildErr.openAPIParseFailed c.id s.openapi])
          | some doc =>
            (updateComp i id (fun c2 =>
              { c2 with httpServer := some { s with
                  parsedOpenAPI := some doc } }), [])
    else (i, [])

/-- Build phase 2 over all components. -/
def runPhase2 (pf : String → Option Document) (i : IRm) :
    IRm × List BuildErr :=
  (i.components.map (fun c => c.id)).foldl
    (fun acc id =>
      let r := phase2Step pf acc.1 id
      (r.1, acc.2 ++ r.2))
    (i, [])

/-- Model of `addEdge` (builder.go): resolve the reference in the symbol
table; a hit appends to both sides' dependency/dependent lists and records
an edge, a miss is an unresolved-reference error. -/
def addEdge (i : IRm) (fromId toRef : String) (et : EdgeType) :
    IRm × Option BuildErr :=
  match STLookup i.symbols toRef with
  | none => (i, some (BuildErr.unresolvedRef toRef fromId))
  | some _ =>
    let i2 := updateComp i fromId (fun c =>
      { c with dependencies := c.dependencies ++ [toRef] })
    let i3 := updateComp i2 toRef (fun c =>
      { c with dependents := c.dependents ++ [fromId] })
    ({ i3 with edges := i3.edges ++ [⟨fromId, toRef, et⟩] }, none)

/-- Fold `addEdge` over a list of references, accumulating errors. -/
def addEdges (i : IRm) (fromId : String) (refs : List String)
    (et : EdgeType) : IRm × List BuildErr :=
  refs.foldl
    (fun acc ref =>
      let r := addEdge acc.1 fromId ref et
      match r.2 with
      | none => (r.1, acc.2)
      | some e => (r.1, acc.2 ++ [e]))
    (i, [])

/-- Model of `extractServerFromBinding` (builder.go): the prefix before the
first colon, `""` when there is no colon. -/
def extractServerFromBinding (bindsTo : String) : String :=
  match splitOnColon bindsTo with
  | [] => ""
  | [_] => ""
  | a :: _ :: _ => a

/-- Model of `resolveReferences` (builder.go, phase 3) for one component. -/
def resolveReferences (i : IRm) (id : String) : IRm × List BuildErr :=
  match i.find id with
  | none => (i, [])
  | some c =>
    match c.kind with
    | Kind.httpServer =>
      match c.httpServer with
      | none => (i, [])
      | some s =>
        let r1 := addEdges i id (s.middleware.getD []) EdgeType.middleware
        let r2 := addEdges r1.1 id (s.dependsOn.getD [])
          EdgeType.dependency
        (r2.1, r1.2 ++ r2.2)
    | Kind.middleware =>
      match c.middleware with
      | none => (i, [])
      | some s => addEdges i id (s.dependsOn.getD []) EdgeType.dependency
    | Kind.postgres => (i, [])
    | Kind.usecase =>
      match c.usecase with
      | none => (i, [])
      | some u =>
        let r0 : IRm × List BuildErr :=
          if u.bindsTo ≠ "" then
            let serverID := extractServerFromBinding u.bindsTo
            if serverID ≠ "" then
              let r := addEdge i id serverID EdgeType.binding
              match r.2 with
              | none => (r.1, [])
              | some e => (r.1, [e])
            else (i, [])
          else (i, [])
        let r1 := addEdges r0.1 id (u.middleware.getD [])
          EdgeType.middleware
        (r1.1, r0.2 ++ r1.2)

/-- Build phase 3 over all components. -/
def runPhase3 (i : IRm) : IRm × List BuildErr :=
  (i.components.map (fun c => c.id)).foldl
    (fun acc id =>
      let r := resolveReferences acc.1 id
      (r.1, acc.2 ++ r.2))
    (i, [])

/-- One iteration of `linkUsecasesToOperations` (builder.go, phase 4): parse
`binds_to`, resolve the server symbol, and attach the binding; when the
server carries a parsed contract the operation must exist and is attached
too. -/
def phase4Step (i : IRm) (id : String) : IRm × List BuildErr :=
  match i.find id with
  | none => (i, [])
  | some c =>
    if c.kind = Kind.usecase then
      match c.usecase with
      | none => (i, [])
      | some u =>
        if u.bindsTo = "" then (i, [])
        else
          match ParseBinding u.bindsTo with
          | Except.error e => (i, [BuildErr.invalidBindsTo c.id e])
          | Except.ok (serverID, method, path) =>
            match STLookup i.symbols serverID with
            | none => (i, [BuildErr.serverNotFound c.id serverID])
            | some k =>
              if k ≠ Kind.httpServer then
                (i, [BuildErr.notAnHTTPServer c.id serverID])
              else
                match i.find serverID with
                | none => (i, [])
                | some sc =>
                  match sc.httpServer with
                  | none =>
                    (updateComp i id (fun c2 =>
                      { c2 with usecase := some { u with
                          binding := some ⟨serverID, method, path,
                            none⟩ } }), [])
                  | some ss =>
                    match ss.parsedOpenAPI with
                    | none =>
                      (updateComp i id (fun c2 =>
                        { c2 with usecase := some { u with
                            binding := some ⟨serverID, method, path,
                              none⟩ } }), [])
                    | some doc =>
                      match List.lookup (OperationKey method path)
                          doc.operations with
                      | none =>
                        (i, [BuildErr.operationNotFound c.id
                          (OperationKey method path) serverID])
                      | some op =>
                        (updateComp i id (fun c2 =>
                          { c2 with usecase := some { u with
                              binding := some ⟨serverID, method, path,
                                some op⟩ } }), [])
    else (i, [])

/-- Build phase 4 over all components. -/
def runPhase4 (i : IRm) : IRm × List BuildErr :=
  (i.components.map (fun c => c.id)).foldl
    (fun acc id =>
      let r := phase4Step acc.1 id
      (r.1, acc.2 ++ r.2))
    (i, [])

/-- Model of `(*Builder).Build` (builder.go): phase 1, early return when it
produced any error, then contract parsing, reference resolution, and binding
resolution with accumulated errors.  The contract parser collaborator is the
oracle `pf`. -/
def Build (pf : String → Option Document) (spec : List RawComponent) :
    IRm × List BuildErr :=
  let p1 := phase1 spec
  let ir0 : IRm := ⟨p1.components, [], p1.symbols⟩
  if p1.errs ≠ [] then (ir0, p1.errs)
  else
    let r2 := runPhase2 pf ir0
    let r3 := runPhase3 r2.1
    let r4 := runPhase4 r3.1
    (r4.1, r2.2 ++ r3.2 ++ r4.2)

lemma lookup_append_some {α β : Type} [BEq α] {t l : List (α × β)} {n : α}
    {k : β} (h : List.lookup n t = some k) :
    List.lookup n (t ++ l) = some k := by
  induction t with
  | nil => simp [List.lookup] at h
  | cons e t ih =>
    cases he : n == e.1 with
    | true => simpa [List.lookup, he] using h
    | false =>
      simp only [List.lookup, he, List.cons_append] at h ⊢
      exact ih h

lemma lookup_snoc_self {α β : Type} [BEq α] [LawfulBEq α]
    {t : List (α × β)} {n : α} {k : β} (h : List.lookup n t = none) :
    List.lookup n (t ++ [(n, k)]) = some k := by
  induction t with
  | nil => simp [List.lookup]
  | cons e t ih =>
    cases he : n == e.1 with
    | true => simp [List.lookup, he] at h
    | false =>
      simp only [List.lookup, he, List.cons_append] at h ⊢
      exact ih h

lemma lookup_mem {α β : Type} [BEq α] [LawfulBEq α] {t : List (α × β)}
    {n : α} {k : β} (h : List.lookup n t = some k) : (n, k) ∈ t := by
  induction t with
  | nil => simp [List.lookup] at h
  | cons e t ih =>
    cases he : n == e.1 with
    | true =>
      simp only [List.lookup, he] at h
      cases h
      have hn : n = e.1 := by simpa using he
      subst hn
      left
    | false =>
      simp only [List.lookup, he] at h
      exact List.mem_cons_of_mem _ (ih h)

/-- Membership in an upserted component map. -/
lemma mem_upsert {l : List Component} {x c : Component}
    (h : c ∈ upsert l x) : c ∈ l ∨ c = x := by
  unfold upsert at h
  by_cases hany : l.any (fun y => y.id == x.id)
  · rw [if_pos hany] at h
    obtain ⟨a, ha, hfa⟩ := List.mem_map.1 h
    by_cases hid : a.id == x.id
    · rw [if_pos hid] at hfa
      exact Or.inr hfa.symm
    · rw [if_neg hid] at hfa
      exact Or.inl (hfa ▸ ha)
  · rw [if_neg hany] at h
    rcases List.mem_append.1 h with h' | h'
    · exact Or.inl h'
    · exact Or.inr (by simpa using h')

/-- Membership in a pointwise-updated component map. -/
lemma mem_updateComp {i : IRm} {id : String} {f : Component → Component}
    {c' : Component} (h : c' ∈ (updateComp i id f).components) :
    ∃ c ∈ i.components, c' = c ∨ c' = f c := by
  obtain ⟨a, ha, hfa⟩ := List.mem_map.1 h
  by_cases hid : a.id == id
  · rw [if_pos hid] at hfa
    exact ⟨a, ha, Or.inr hfa.symm⟩
  · rw [if_neg hid] at hfa
    exact ⟨a, ha, Or.inl hfa.symm⟩

lemma phase1Step_eq_err {st : P1State} {rc : RawComponent} {e : String}
    (hk : ParseKind rc.kind = Except.error e) :
    phase1Step st rc =
      { st with errs := st.errs ++ [BuildErr.unknownKind rc.id rc.kind] } :=
  by simp [phase1Step, hk]

lemma phase1Step_eq_new {st : P1State} {rc : RawComponent} {k : Kind}
    (hk : ParseKind rc.kind = Except.ok k)
    (hl : List.lookup rc.id st.symbols = none) :
    phase1Step st rc =
      { components := upsert st.components (mkComponent rc.id k rc.spec)
        symbols := st.symbols ++ [(rc.id, k)]
        errs := st.errs } := by
  simp [phase1Step, hk, STDefine, hl]

lemma phase1Step_eq_dup {st : P1State} {rc : RawComponent} {k ex : Kind}
    (hk : ParseKind rc.kind = Except.ok k)
    (hl : List.lookup rc.id st.symbols = some ex) :
    phase1Step st rc =
      { components := upsert st.components (mkComponent rc.id k rc.spec)
        symbols := st.symbols
        errs := st.errs ++ [BuildErr.duplicateSymbol rc.id ex] } := by
  simp [phase1Step, hk, STDefine, hl]

/-- A freshly built phase-1 component: no edges, no parsed contract, no
binding. -/
def Pristine (c : Component) : Prop :=
  c.dependencies = [] ∧ c.dependents = [] ∧
    (∀ s, c.httpServer = some s → s.parsedOpenAPI = none) ∧
    (∀ u, c.usecase = some u → u.binding = none)

lemma mkComponent_pristine (id : String) (k : Kind) (r : RawSpec) :
    Pristine (mkComponent id k r) := by
  refine ⟨rfl, rfl, ?_, ?_⟩
  · intro s hs
    unfold mkComponent at hs
    by_cases hk : k = Kind.httpServer
    · rw [if_pos hk] at hs
      cases hs
      rfl
    · rw [if_neg hk] at hs
      cases hs
  · intro u hu
    unfold mkComponent at hu
    by_cases hk : k = Kind.usecase
    · rw [if_pos hk] at hu
      cases hu
      rfl
    · rw [if_neg hk] at hu
      cases hu

lemma phase1Step_components (st : P1State) (rc : RawComponent) :
    ∀ c ∈ (phase1Step st rc).components,
      c ∈ st.components ∨ ∃ k, c = mkComponent rc.id k rc.spec := by
  intro c hc
  rcases hk : ParseKind rc.kind with e | k
  · rw [phase1Step_eq_err hk] at hc
    exact Or.inl hc
  · rcases hl : List.lookup rc.id st.symbols with _ | ex
    · rw [phase1Step_eq_new hk hl] at hc
      rcases mem_upsert hc with h | h
      · exact Or.inl h
      · exact Or.inr ⟨k, h⟩
    · rw [phase1Step_eq_dup hk hl] at hc
      rcases mem_upsert hc with h | h
      · exact Or.inl h
      · exact Or.inr ⟨k, h⟩

/-- Every component produced by phase 1 is pristine. -/
lemma phase1_pristine :
    ∀ (l : List RawComponent) (st : P1State),
      (∀ c ∈ st.components, Pristine c) →
      ∀ c ∈ (l.foldl phase1Step st).components, Pristine c := by
  intro l
  induction l with
  | nil => exact fun st h => h
  | cons rc l ih =>
    intro st hst
    refine ih (phase1Step st rc) ?_
    intro c hc
    rcases phase1Step_components st rc c hc with h | ⟨k, rfl⟩
    · exact hst c h
    · exact mkComponent_pristine rc.id k rc.spec

/-- The phase-1 error list only ever grows. -/
lemma phase1_errs_mono :
    ∀ (l : List RawComponent) (st : P1State),
      ∃ u, (l.foldl phase1Step st).errs = st.errs ++ u := by
  intro l
  induction l with
  | nil => exact fun st => ⟨[], by simp⟩
  | cons rc l ih =>
    intro st
    obtain ⟨u, hu⟩ := ih (phase1Step st rc)
    rw [List.foldl_cons, hu]
    rcases hk : ParseKind rc.kind with e | k
    · rw [phase1Step_eq_err hk]
      exact ⟨[BuildErr.unknownKind rc.id rc.kind] ++ u, by simp⟩
    · rcases hl : List.lookup rc.id st.symbols with _ | ex
      · rw [phase1Step_eq_new hk hl]
        exact ⟨u, by simp⟩
      · rw [phase1Step_eq_dup hk hl]
        exact ⟨[BuildErr.duplicateSymbol rc.id ex] ++ u, by simp⟩

/-- A registered symbol stays registered with the same kind for the rest of
phase 1. -/
lemma phase1_lookup_persist :
    ∀ (l : List RawComponent) (st : P1State) (n : String) (k : Kind),
      List.lookup n st.symbols = some k →
      List.lookup n ((l.foldl phase1Step st).symbols) = some k := by
  intro l
  induction l with
  | nil => exact fun st n k h => h
  | cons rc l ih =>
    intro st n k h
    refine ih (phase1Step st rc) n k ?_
    rcases hk : ParseKind rc.kind with e | k'
    · rw [phase1Step_eq_err hk]
      exact h
    · rcases hl : List.lookup rc.id st.symbols with _ | ex
      · rw [phase1Step_eq_new hk hl]
        exact lookup_append_some h
      · rw [phase1Step_eq_dup hk hl]
        exact h

/-- After phase 1 has processed a component of known kind, its ID is
registered. -/
lemma phase1Step_registers (st : P1State) (rc : RawComponent) (k : Kind)
    (hk : ParseKind rc.kind = Except.ok k) :
    ∃ k', List.lookup rc.id (phase1Step st rc).symbols = some k' := by
  rcases hl : List.lookup rc.id st.symbols with _ | ex
  · rw [phase1Step_eq_new hk hl]
    exact ⟨k, lookup_snoc_self hl⟩
  · rw [phase1Step_eq_dup hk hl]
    exact ⟨ex, hl⟩

/-- Every symbol registered by phase 1 is the ID of some input component. -/
lemma phase1_symbols_from_spec :
    ∀ (l : List RawComponent) (st : P1State),
      ∀ e ∈ (l.foldl phase1Step st).symbols,
        e ∈ st.symbols ∨ ∃ rc ∈ l, rc.id = e.1 := by
  intro l
  induction l with
  | nil => exact fun st e he => Or.inl he
  | cons rc l ih =>
    intro st e he
    rcases ih (phase1Step st rc) e he with h | ⟨rc', hrc', hid⟩
    · rcases hk : ParseKind rc.kind with e' | k
      · rw [phase1Step_eq_err hk] at h
        exact Or.inl h
      · rcases hl : List.lookup rc.id st.symbols with _ | ex
        · rw [phase1Step_eq_new hk hl] at h
          rcases List.mem_append.1 h with h' | h'
          · exact Or.inl h'
          · refine Or.inr ⟨rc, by simp, ?_⟩
            have he2 : e = (rc.id, k) := by simpa using h'
            rw [he2]
        · rw [phase1Step_eq_dup hk hl] at h
          exact Or.inl h
    · exact Or.inr ⟨rc', List.mem_cons_of_mem _ hrc', hid⟩

/-- C4: `Define` fails exactly when the name is already registered, leaving
the table unchanged on failure; and `Build` on a component list containing
two components with equal IDs (both of known kinds) returns at least one
`DuplicateSymbolError` naming the colliding ID. -/
theorem define_duplicate_correct :
    (∀ (t : SymbolTable) (n : String) (k : Kind),
      ((STDefine t n k).2.isSome ↔ (List.lookup n t).isSome) ∧
        ((List.lookup n t).isSome → (STDefine t n k).1 = t)) ∧
    (∀ (pf : String → Option Document) (l1 l2 l3 : List RawComponent)
      (c1 c2 : RawComponent) (k1 k2 : Kind), c1.id = c2.id →
      ParseKind c1.kind = Except.ok k1 →
      ParseKind c2.kind = Except.ok k2 →
      ∃ k, BuildErr.duplicateSymbol c2.id k ∈
        (Build pf (l1 ++ c1 :: l2 ++ c2 :: l3)).2) := by
  constructor
  · intro t n k
    rcases hl : List.lookup n t with _ | ex
    · simp [STDefine, hl]
    · simp [STDefine, hl]
  · intro pf l1 l2 l3 c1 c2 k1 k2 hid hk1 hk2
    have hdecomp : phase1 (l1 ++ c1 :: l2 ++ c2 :: l3) =
        (c2 :: l3).foldl phase1Step
          (l2.foldl phase1Step
            (phase1Step (l1.foldl phase1Step ⟨[], [], []⟩) c1)) := by
      unfold phase1
      simp only [List.foldl_append, List.foldl_cons]
    obtain ⟨k', hk'⟩ := phase1Step_registers
      (l1.foldl phase1Step ⟨[], [], []⟩) c1 k1 hk1
    have hpersist := phase1_lookup_persist l2
      (phase1Step (l1.foldl phase1Step ⟨[], [], []⟩) c1) c1.id k' hk'
    rw [hid] at hpersist
    set st2 := l2.foldl phase1Step
      (phase1Step (l1.foldl phase1Step ⟨[], [], []⟩) c1) with hst2
    have hstep2 := @phase1Step_eq_dup st2 c2 k2 k' hk2 hpersist
    have hmem : BuildErr.duplicateSymbol c2.id k' ∈
        (phase1 (l1 ++ c1 :: l2 ++ c2 :: l3)).errs := by
      rw [hdecomp, List.foldl_cons, hstep2]
      obtain ⟨u, hu⟩ := phase1_errs_mono l3
        { components := upsert st2.components (mkComponent c2.id k2 c2.spec)
          symbols := st2.symbols
          errs := st2.errs ++ [BuildErr.duplicateSymbol c2.id k'] }
      rw [hu]
      simp
    refine ⟨k', ?_⟩
    have hne : (phase1 (l1 ++ c1 :: l2 ++ c2 :: l3)).errs ≠ [] :=
      List.ne_nil_of_mem hmem
    show BuildErr.duplicateSymbol c2.id k' ∈
      (Build pf (l1 ++ c1 :: l2 ++ c2 :: l3)).2
    unfold Build
    rw [if_pos hne]
    exact hmem

/-- C4 witness: a concrete two-component list with a colliding ID. -/
theorem define_duplicate_correct_witness :
    ∃ k, BuildErr.duplicateSymbol "a" k ∈
      (Build (fun _ => none)
        [⟨"a", "http.server", {}⟩, ⟨"a", "usecase", {}⟩]).2 :=
  define_duplicate_correct.2 (fun _ => none) [] [] []
    ⟨"a", "http.server", {}⟩ ⟨"a", "usecase", {}⟩
    Kind.httpServer Kind.usecase rfl rfl rfl

/-- C5: when phase 1 produces any error, `Build` returns immediately with
exactly those errors and the IR carries no phase 2-4 effects: empty edge
list, empty dependency/dependent lists, no parsed contract, no binding. -/
theorem build_phase1_failure_isolates (pf : String → Option Document)
    (spec : List RawComponent) (h : (phase1 spec).errs ≠ []) :
    Build pf spec =
      (⟨(phase1 spec).components, [], (phase1 spec).symbols⟩,
        (phase1 spec).errs) ∧
    (Build pf spec).1.edges = [] ∧
    ∀ c ∈ (Build pf spec).1.components,
      c.dependencies = [] ∧ c.dependents = [] ∧
      (∀ s, c.httpServer = some s → s.parsedOpenAPI = none) ∧
      (∀ u, c.usecase = some u → u.binding = none) := by
  have hB : Build pf spec =
      (⟨(phase1 spec).components, [], (phase1 spec).symbols⟩,
        (phase1 spec).errs) := by
    unfold Build
    rw [if_pos h]
  refine ⟨hB, by rw [hB], ?_⟩
  rw [hB]
  intro c hc
  exact phase1_pristine spec ⟨[], [], []⟩ (by intro c h'; cases h') c hc

/-- C5 witness: a concrete one-component list with an unknown kind. -/
theorem build_phase1_failure_isolates_witness :
    (phase1 [(⟨"x", "bogus", {}⟩ : RawComponent)]).errs ≠ [] ∧
      (Build (fun _ => none) [⟨"x", "bogus", {}⟩] =
        (⟨(phase1 [(⟨"x", "bogus", {}⟩ : RawComponent)]).components, [],
          (phase1 [(⟨"x", "bogus", {}⟩ : RawComponent)]).symbols⟩,
          (phase1 [(⟨"x", "bogus", {}⟩ : RawComponent)]).errs) ∧
      (Build (fun _ => none) [⟨"x", "bogus", {}⟩]).1.edges = [] ∧
      ∀ c ∈ (Build (fun _ => none) [⟨"x", "bogus", {}⟩]).1.components,
        c.dependencies = [] ∧ c.dependents = [] ∧
        (∀ s, c.httpServer = some s → s.parsedOpenAPI = none) ∧
        (∀ u, c.usecase = some u → u.binding = none)) :=
  ⟨by decide,
    build_phase1_failure_isolates (fun _ => none) [⟨"x", "bogus", {}⟩]
      (by decide)⟩

/-- A successfully parsed binding: whitelisted method, slash-started path,
and the server segment equal to the prefix before the first colon. -/
lemma ParseBinding_ok_props {s sid m p : String}
    (h : ParseBinding s = Except.ok (sid, m, p)) :
    m ∈ validMethods ∧ startsWithSlash p = true ∧
      extractServerFromBinding s = sid := by
  unfold ParseBinding at h
  by_cases hs : s = ""
  · rw [if_pos hs] at h
    cases h
  · rw [if_neg hs] at h
    unfold extractServerFromBinding
    rcases hsp : splitOnColon s with _ | ⟨a, _ | ⟨b, _ | ⟨c, rest⟩⟩⟩ <;>
      rw [hsp] at h
    · cases h
    · cases h
    · cases h
    · dsimp only at h
      by_cases hm : b ∈ validMethods
      · rw [if_pos hm] at h
        by_cases hp : startsWithSlash (joinColon (c :: rest))
        · rw [if_pos hp] at h
          obtain ⟨h1, h2, h3⟩ : a = sid ∧ b = m ∧
              joinColon (c :: rest) = p := by
            have := Except.ok.inj h
            simpa [Prod.ext_iff] using this
          subst h1
          subst h2
          subst h3
          exact ⟨hm, hp, rfl⟩
        · rw [if_neg hp] at h
          cases h
      · rw [if_neg hm] at h
        cases h

lemma updateComp_symbols (i : IRm) (id : String)
    (f : Component → Component) :
    (updateComp i id f).symbols = i.symbols := rfl

lemma phase2Step_symbols (pf : String → Option Document) (j : IRm)
    (id : String) : (phase2Step pf j id).1.symbols = j.symbols := by
  unfold phase2Step
  repeat' split
  all_goals rfl

lemma addEdge_symbols (j : IRm) (a b : String) (et : EdgeType) :
    (addEdge j a b et).1.symbols = j.symbols := by
  unfold addEdge
  split
  all_goals rfl

lemma addEdgesAux_symbols :
    ∀ (refs : List String) (j : IRm) (es : List BuildErr) (a : String)
      (et : EdgeType),
      (refs.foldl (fun acc ref =>
        let r := addEdge acc.1 a ref et
        match r.2 with
        | none => (r.1, acc.2)
        | some e => (r.1, acc.2 ++ [e])) (j, es)).1.symbols = j.symbols := by
  intro refs
  induction refs with
  | nil => intro j es a et; rfl
  | cons ref refs ih =>
    intro j es a et
    rw [List.foldl_cons]
    rcases hr : (addEdge j a ref et).2 with _ | e <;> simp only [hr] <;>
      rw [ih] <;> exact addEdge_symbols j a ref et

lemma addEdges_symbols (j : IRm) (a : String) (rs : List String)
    (et : EdgeType) : (addEdges j a rs et).1.symbols = j.symbols :=
  addEdgesAux_symbols rs j [] a et

lemma resolveReferences_symbols (j : IRm) (id : String) :
    (resolveReferences j id).1.symbols = j.symbols := by
  unfold resolveReferences
  split
  · rfl
  · split
    · split
      · rfl
      · dsimp only
        rw [addEdges_symbols, addEdges_symbols]
    · split
      · rfl
      · exact addEdges_symbols _ _ _ _
    · rfl
    · split
      · rfl
      · dsimp only
        rw [addEdges_symbols]
        split
        · split
          · split
            · dsimp only
              exact addEdge_symbols _ _ _ _
            · dsimp only
              exact addEdge_symbols _ _ _ _
          · rfl
        · rfl

lemma phase4Step_symbols (j : IRm) (id : String) :
    (phase4Step j id).1.symbols = j.symbols := by
  unfold phase4Step
  repeat' split
  all_goals rfl

/-- Generic preservation of an IR property across a phase loop. -/
lemma foldPhase_pres (step : IRm → String → IRm × List BuildErr)
    (P : IRm → Prop) (hstep : ∀ j id, P j → P (step j id).1) :
    ∀ (ids : List String) (j : IRm) (es : List BuildErr), P j →
      P ((List.foldl (fun acc id =>
          let r := step acc.1 id
          (r.1, acc.2 ++ r.2)) (j, es) ids).1) := by
  intro ids
  induction ids with
  | nil => exact fun j es h => h
  | cons id ids ih =>
    intro j es h
    exact ih (step j id).1 _ (hstep j id h)

/-- Every component of `j` keeps the usecase spec of some component of
`i` (phases 2 and 3 never touch usecase specs). -/
def UsecasesSame (i j : IRm) : Prop :=
  ∀ c' ∈ j.components, ∃ c ∈ i.components, c'.usecase = c.usecase

lemma usecasesSame_refl (i : IRm) : UsecasesSame i i :=
  fun c hc => ⟨c, hc, rfl⟩

lemma usecasesSame_trans {i j k : IRm} (h1 : UsecasesSame i j)
    (h2 : UsecasesSame j k) : UsecasesSame i k := by
  intro c' hc'
  obtain ⟨c1, hc1, he1⟩ := h2 c' hc'
  obtain ⟨c0, hc0, he0⟩ := h1 c1 hc1
  exact ⟨c0, hc0, he1.trans he0⟩

lemma updateComp_usecases {i : IRm} {id : String} {f : Component → Component}
    (hf : ∀ c, (f c).usecase = c.usecase) :
    UsecasesSame i (updateComp i id f) := by
  intro c' hc'
  obtain ⟨c, hc, h⟩ := mem_updateComp hc'
  rcases h with h | h
  · exact ⟨c, hc, by rw [h]⟩
  · exact ⟨c, hc, by rw [h, hf c]⟩

lemma phase2Step_usecases (pf : String → Option Document) (j : IRm)
    (id : String) : UsecasesSame j (phase2Step pf j id).1 := by
  unfold phase2Step
  repeat' split
  all_goals first
    | exact usecasesSame_refl j
    | exact updateComp_usecases (fun _ => rfl)

lemma addEdge_usecases (j : IRm) (a b : String) (et : EdgeType) :
    UsecasesSame j (addEdge j a b et).1 := by
  unfold addEdge
  split
  · exact usecasesSame_refl j
  · have h1 := @updateComp_usecases j a
      (fun c => { c with dependencies := c.dependencies ++ [b] })
      (fun _ => rfl)
    have h2 := @updateComp_usecases (updateComp j a
        (fun c => { c with dependencies := c.dependencies ++ [b] })) b
      (fun c => { c with dependents := c.dependents ++ [a] })
      (fun _ => rfl)
    exact usecasesSame_trans h1 h2

lemma addEdgesAux_usecases :
    ∀ (refs : List String) (j : IRm) (es : List BuildErr) (a : String)
      (et : EdgeType),
      UsecasesSame j ((refs.foldl (fun acc ref =>
        let r := addEdge acc.1 a ref et
        match r.2 with
        | none => (r.1, acc.2)
        | some e => (r.1, acc.2 ++ [e])) (j, es)).1) := by
  intro refs
  induction refs with
  | nil => intro j es a et; exact usecasesSame_refl j
  | cons ref refs ih =>
    intro j es a et
    rw [List.foldl_cons]
    rcases hr : (addEdge j a ref et).2 with _ | e <;> simp only [hr] <;>
      exact usecasesSame_trans (addEdge_usecases j a ref et) (ih _ _ _ _)

lemma addEdges_usecases (j : IRm) (a : String) (rs : List String)
    (et : EdgeType) : UsecasesSame j (addEdges j a rs et).1 :=
  addEdgesAux_usecases rs j [] a et

lemma resolveReferences_usecases (j : IRm) (id : String) :
    UsecasesSame j (resolveReferences j id).1 := by
  unfold resolveReferences
  split
  · exact usecasesSame_refl j
  · split
    · split
      · exact usecasesSame_refl j
      · dsimp only
        exact usecasesSame_trans (addEdges_usecases _ _ _ _)
          (addEdges_usecases _ _ _ _)
    · split
      · exact usecasesSame_refl j
      · exact addEdges_usecases _ _ _ _
    · exact usecasesSame_refl j
    · split
      · exact usecasesSame_refl j
      · dsimp only
        refine usecasesSame_trans ?_ (addEdges_usecases _ _ _ _)
        split
        · split
          · split
            · dsimp only
              exact addEdge_usecases _ _ _ _
            · dsimp only
              exact addEdge_usecases _ _ _ _
          · exact usecasesSame_refl j
        · exact usecasesSame_refl j

/-- No usecase of the IR carries a binding yet. -/
def BindingsNone (i : IRm) : Prop :=
  ∀ c ∈ i.components, ∀ u, c.usecase = some u → u.binding = none

lemma bindingsNone_of_usecasesSame {i j : IRm} (hs : UsecasesSame i j)
    (h : BindingsNone i) : BindingsNone j := by
  intro c' hc' u hu
  obtain ⟨c, hc, he⟩ := hs c' hc'
  exact h c hc u (he ▸ hu)

/-- A binding the builder is allowed to attach: whitelisted method,
slash-started path, and a server symbol of kind `http.server`. -/
def GoodBinding (t : SymbolTable) (b : Binding) : Prop :=
  b.method ∈ validMethods ∧ startsWithSlash b.path = true ∧
    STLookup t b.serverID = some Kind.httpServer

/-- Every attached binding of the IR is good. -/
def GoodBindings (i : IRm) : Prop :=
  ∀ c ∈ i.components, ∀ u b, c.usecase = some u → u.binding = some b →
    GoodBinding i.symbols b

lemma goodBindings_of_none {i : IRm} (h : BindingsNone i) :
    GoodBindings i := by
  intro c hc u b hu hb
  rw [h c hc u hu] at hb
  cases hb

lemma goodBindings_attach {j : IRm} {id : String} {u : UsecaseSpec}
    {b : Binding} (h : GoodBindings j) (hg : GoodBinding j.symbols b) :
    GoodBindings (updateComp j id (fun c2 =>
      { c2 with usecase := some { u with binding := some b } })) := by
  intro c' hc' u' b' hu' hb'
  obtain ⟨c, hc, hcase⟩ := mem_updateComp hc'
  rcases hcase with he | he
  · exact h c hc u' b' (by rw [← he]; exact hu') hb'
  · have hu2 : some { u with binding := some b } = some u' := by
      rw [← hu', he]
    have hu3 : u' = { u with binding := some b } :=
      (Option.some.inj hu2).symm
    rw [hu3] at hb'
    have hb2 : b' = b := (Option.some.inj hb').symm
    rw [hb2]
    exact hg

/-- Phase 4 only ever attaches good bindings. -/
lemma phase4Step_good (j : IRm) (id : String) (h : GoodBindings j) :
    GoodBindings (phase4Step j id).1 := by
  unfold phase4Step
  rcases hf : j.find id with _ | c
  · exact h
  · dsimp only
    by_cases hk : c.kind = Kind.usecase
    · rw [if_pos hk]
      rcases hu : c.usecase with _ | u
      · exact h
      · dsimp only
        by_cases hb : u.bindsTo = ""
        · rw [if_pos hb]
          exact h
        · rw [if_neg hb]
          rcases hpb : ParseBinding u.bindsTo with e | ⟨sid, m, p⟩
          · exact h
          · dsimp only
            obtain ⟨hm, hp, _⟩ := ParseBinding_ok_props hpb
            rcases hlk : STLookup j.symbols sid with _ | k
            · exact h
            · dsimp only
              by_cases hkk : k ≠ Kind.httpServer
              · rw [if_pos hkk]
                exact h
              · rw [if_neg hkk]
                have hksrv : k = Kind.httpServer := not_not.1 hkk
                subst hksrv
                have hgb : ∀ o, GoodBinding j.symbols ⟨sid, m, p, o⟩ :=
                  fun o => ⟨hm, hp, hlk⟩
                rcases hsv : j.find sid with _ | sc
                · exact h
                · dsimp only
                  rcases hss : sc.httpServer with _ | ss
                  · exact goodBindings_attach h (hgb none)
                  · dsimp only
                    rcases hpo : ss.parsedOpenAPI with _ | doc
                    · exact goodBindings_attach h (hgb none)
                    · dsimp only
                      rcases hop : List.lookup (OperationKey m p)
                          doc.operations with _ | op
                      · exact h
                      · exact goodBindings_attach h (hgb (some op))
    · rw [if_neg hk]
      exact h

/-- The binding attached to a usecase component of an IR, if any. -/
def bindingOf (i : IRm) (id : String) : Option Binding :=
  ((i.find id).bind (fun c => c.usecase)).bind (fun u => u.binding)

/-- C3 counterexample: a specification containing an `http.server` with the
empty string as ID and a usecase bound to `":GET:/x"` builds without errors
and attaches a binding whose `ServerID` is empty, refuting the claim that an
attached binding always has a non-empty `ServerID`. -/
theorem build_binding_counterexample :
    bindingOf (Build (fun _ => none)
      [⟨"", "http.server", {}⟩,
        ⟨"u", "usecase",
          { bindsTo := some ":GET:/x", goal := some "g" }⟩]).1 "u" =
      some ⟨"", "GET", "/x", none⟩ ∧
    (Build (fun _ => none)
      [⟨"", "http.server", {}⟩,
        ⟨"u", "usecase",
          { bindsTo := some ":GET:/x", goal := some "g" }⟩]).2 = [] := by
  constructor
  · rfl
  · rfl

/-- C3 (amended): whenever `Build` attaches a binding, it has a non-empty
method and path, and its server ID resolves in the symbol table to an
`http.server`; the server ID itself is non-empty provided every component ID
in the specification is non-empty. -/
theorem build_binding_amended (pf : String → Option Document)
    (spec : List RawComponent) :
    ∀ c ∈ (Build pf spec).1.components, ∀ u b, c.usecase = some u →
      u.binding = some b →
      b.method ≠ "" ∧ b.path ≠ "" ∧
      STLookup (Build pf spec).1.symbols b.serverID =
        some Kind.httpServer ∧
      ((∀ rc ∈ spec, rc.id ≠ "") → b.serverID ≠ "") := by
  intro c hc u b hu hb
  by_cases herr : (phase1 spec).errs ≠ []
  · have hB := (build_phase1_failure_isolates pf spec herr).1
    rw [hB] at hc
    have hpr := phase1_pristine spec ⟨[], [], []⟩
      (by intro x hx; cases hx) c hc
    rw [hpr.2.2.2 u hu] at hb
    cases hb
  · have hB : Build pf spec =
        ((runPhase4 (runPhase3 (runPhase2 pf
          ⟨(phase1 spec).components, [], (phase1 spec).symbols⟩).1).1).1,
          (runPhase2 pf
            ⟨(phase1 spec).components, [], (phase1 spec).symbols⟩).2 ++
          (runPhase3 (runPhase2 pf
            ⟨(phase1 spec).components, [], (phase1 spec).symbols⟩).1).2 ++
          (runPhase4 (runPhase3 (runPhase2 pf
            ⟨(phase1 spec).components, [],
              (phase1 spec).symbols⟩).1).1).2) := by
      unfold Build
      rw [if_neg herr]
    have hi0 : BindingsNone
        ⟨(phase1 spec).components, [], (phase1 spec).symbols⟩ := by
      intro c0 hc0 u0 hu0
      exact (phase1_pristine spec ⟨[], [], []⟩
        (by intro x hx; cases hx) c0 hc0).2.2.2 u0 hu0
    have hus2 : UsecasesSame
        ⟨(phase1 spec).components, [], (phase1 spec).symbols⟩
        (runPhase2 pf
          ⟨(phase1 spec).components, [], (phase1 spec).symbols⟩).1 :=
      foldPhase_pres (phase2Step pf)
        (fun j => UsecasesSame
          ⟨(phase1 spec).components, [], (phase1 spec).symbols⟩ j)
        (fun j id hj =>
          usecasesSame_trans hj (phase2Step_usecases pf j id)) _ _ []
        (usecasesSame_refl _)
    have hus3 : UsecasesSame
        ⟨(phase1 spec).components, [], (phase1 spec).symbols⟩
        (runPhase3 (runPhase2 pf
          ⟨(phase1 spec).components, [], (phase1 spec).symbols⟩).1).1 :=
      foldPhase_pres resolveReferences
        (fun j => UsecasesSame
          ⟨(phase1 spec).components, [], (phase1 spec).symbols⟩ j)
        (fun j id hj =>
          usecasesSame_trans hj (resolveReferences_usecases j id)) _ _ []
        hus2
    have hgood : GoodBindings (runPhase4 (runPhase3 (runPhase2 pf
        ⟨(phase1 spec).components, [], (phase1 spec).symbols⟩).1).1).1 :=
      foldPhase_pres phase4Step GoodBindings
        (fun j id hj => phase4Step_good j id hj) _ _ []
        (goodBindings_of_none (bindingsNone_of_usecasesSame hus3 hi0))
    have hsym2 : (runPhase2 pf
        ⟨(phase1 spec).components, [], (phase1 spec).symbols⟩).1.symbols =
        (phase1 spec).symbols :=
      foldPhase_pres (phase2Step pf)
        (fun j => j.symbols = (phase1 spec).symbols)
        (fun j id hj => (phase2Step_symbols pf j id).trans hj) _ _ [] rfl
    have hsym3 : (runPhase3 (runPhase2 pf
        ⟨(phase1 spec).components, [],
          (phase1 spec).symbols⟩).1).1.symbols =
        (phase1 spec).symbols :=
      foldPhase_pres resolveReferences
        (fun j => j.symbols = (phase1 spec).symbols)
        (fun j id hj => (resolveReferences_symbols j id).trans hj) _ _ []
        hsym2
    have hsym4 : (runPhase4 (runPhase3 (runPhase2 pf
        ⟨(phase1 spec).components, [],
          (phase1 spec).symbols⟩).1).1).1.symbols =
        (phase1 spec).symbols :=
      foldPhase_pres phase4Step
        (fun j => j.symbols = (phase1 spec).symbols)
        (fun j id hj => (phase4Step_symbols j id).trans hj) _ _ []
        hsym3
    rw [hB] at hc
    obtain ⟨hm, hp, hlk⟩ := hgood c hc u b hu hb
    refine ⟨?_, ?_, ?_, ?_⟩
    · intro hm0
      rw [hm0] at hm
      exact absurd hm (by decide)
    · intro hp0
      rw [hp0] at hp
      exact absurd hp (by decide)
    · rw [hB]
      exact hlk
    · intro hids hsv
      rw [hsym4] at hlk
      have hmem := lookup_mem hlk
      rcases phase1_symbols_from_spec spec ⟨[], [], []⟩ _ hmem with
        h0 | ⟨rc, hrc, hrcid⟩
      · cases h0
      · exact hids rc hrc (hrcid.trans hsv)

/-- Witness specification for the amended C3: the spec example
`server.api` + `usecase.x`. -/
def wBuildSpec : List RawComponent :=
  [⟨"server.api", "http.server",
    { framework := some "hono", port := some 3000 }⟩,
   ⟨"usecase.x", "usecase",
    { bindsTo := some "server.api:POST:/users", goal := some "g" }⟩]

/-- The usecase component as built from `wBuildSpec`. -/
def wBuiltUsecase : Component :=
  ⟨"usecase.x", Kind.usecase, ["server.api"], [], none, none, none,
    some ⟨"server.api:POST:/users", none, "g", "", none, none, none,
      some ⟨"server.api", "POST", "/users", none⟩⟩⟩

/-- The server component as built from `wBuildSpec`. -/
def wBuiltServer : Component :=
  ⟨"server.api", Kind.httpServer, [], ["usecase.x"],
    some ⟨"hono", 3000, "", none, none, none⟩, none, none, none⟩

/-- C3 witness: the amended theorem applied to a concrete successful
build. -/
theorem build_binding_amended_witness :
    wBuiltUsecase ∈ (Build (fun _ => none) wBuildSpec).1.components ∧
    ((⟨"server.api", "POST", "/users", none⟩ : Binding).method ≠ "" ∧
      (⟨"server.api", "POST", "/users", none⟩ : Binding).path ≠ "" ∧
      STLookup (Build (fun _ => none) wBuildSpec).1.symbols
        (⟨"server.api", "POST", "/users", none⟩ : Binding).serverID =
        some Kind.httpServer ∧
      ((∀ rc ∈ wBuildSpec, rc.id ≠ "") →
        (⟨"server.api", "POST", "/users", none⟩ : Binding).serverID ≠ "")) :=
  ⟨by
    rw [show (Build (fun _ => none) wBuildSpec).1.components =
      [wBuiltServer, wBuiltUsecase] from rfl]
    exact List.mem_cons_of_mem _ (List.mem_cons_self _ _),
    build_binding_amended (fun _ => none) wBuildSpec wBuiltUsecase
      (by
        rw [show (Build (fun _ => none) wBuildSpec).1.components =
          [wBuiltServer, wBuiltUsecase] from rfl]
        exact List.mem_cons_of_mem _ (List.mem_cons_self _ _)) _ _ rfl rfl⟩

/-- Model of `formatCycle` (ir/validate.go): the loop-and-append
construction `c0 -> c1 -> ... -> c0`. -/
def formatCycle : List String → String
  | [] => ""
  | x :: rest =>
    (rest.foldl (fun acc id => acc ++ " -> " ++ id) x) ++ " -> " ++ x

/-- Model of `strings.Join` (first element, then separator-prefixed
elements). -/
def strJoin (sep : String) : List String → String
  | [] => ""
  | x :: xs => xs.foldl (fun acc e => acc ++ sep ++ e) x

/-- Model of `formatCycle` (validator/ir.go): `strings.Join` plus the
closing element. -/
def formatCycleV : List String → String
  | [] => ""
  | x :: rest => strJoin " -> " (x :: rest) ++ " -> " ++ x

/-- The two `formatCycle` implementations agree on every cycle. -/
lemma formatCycleV_eq_formatCycle : ∀ c, formatCycleV c = formatCycle c := by
  intro c
  cases c with
  | nil => rfl
  | cons x rest => rfl

/-- The failure cases of `validateBindsTo` (ir/validate.go). -/
inductive VBErr where
  | format (raw : String)
  | badMethod (m : String)
  | badPath (p : String)
deriving Repr, DecidableEq

/-- Model of `validateBindsTo` (ir/validate.go): `strings.SplitN(s, ":", 3)`
yields three parts exactly when the value has at least two colons; the
method then has to be whitelisted and the path slash-started. -/
def validateBindsTo (s : String) : Option VBErr :=
  match splitOnColon s with
  | a :: b :: c :: rest =>
    let path := joinColon (c :: rest)
    if b ∈ validMethods then
      if startsWithSlash path then none
      else some (VBErr.badPath path)
    else some (VBErr.badMethod b)
  | _ => some (VBErr.format s)

/-- Validation errors of the two IR-layer validators (ir/validate.go and
validator/ir.go), one constructor per distinct message shape; `render` maps
each to the `(ID, Message)` pair the Go `ValidationError` carries.
Constructors suffixed `A` belong to messages only ir/validate.go produces,
`B` to messages only validator/ir.go produces. -/
inductive VErr where
  | cycle (cyc : List String)
  | missingServerSpec (id : String)
  | missingFramework (id : String)
  | missingPort (id : String)
  | portRange (id : String)
  | mwMismatch (id ref : String) (k : Kind)
  | missingMiddlewareSpec (id : String)
  | missingProvider (id : String)
  | baConfig (id : String)
  | casbinModel (id : String)
  | casbinPolicy (id : String)
  | missingPostgresSpec (id : String)
  | missingSchema (id : String)
  | missingUsecaseSpec (id : String)
  | missingBindsTo (id : String)
  | bindsToFormatA (id raw : String)
  | badMethodA (id m : String)
  | badPathA (id p : String)
  | emptyBindsToB (id : String)
  | bindsToFormatB (id raw : String)
  | badMethodB (id m : String)
  | badPathB (id p : String)
  | bindsToKindMismatch (id server : String) (k : Kind)
  | missingGoal (id : String)
  | baNeedsServer
  | baNeedsDrizzle
deriving Repr, DecidableEq

/-- Go `%q` for the identifier strings appearing in messages. -/
def quoteStr (s : String) : String := "\"" ++ s ++ "\""

/-- The `(ID, Message)` pair of each validation error, with the exact
`fmt` format strings of the two source files. -/
def VErr.render : VErr → String × String
  | VErr.cycle cyc => ("", "dependency cycle: " ++ formatCycle cyc)
  | VErr.missingServerSpec id => (id, "missing http.server spec")
  | VErr.missingFramework id => (id, "missing required field: framework")
  | VErr.missingPort id => (id, "missing required field: port")
  | VErr.portRange id => (id, "port must be between 1 and 65535")
  | VErr.mwMismatch id ref k =>
    (id, "middleware reference " ++ quoteStr ref ++ " points to " ++
      k.toGoString ++ ", expected middleware")
  | VErr.missingMiddlewareSpec id => (id, "missing middleware spec")
  | VErr.missingProvider id => (id, "missing required field: provider")
  | VErr.baConfig id => (id, "better-auth provider requires config field")
  | VErr.casbinModel id => (id, "casbin provider requires model field")
  | VErr.casbinPolicy id => (id, "casbin provider requires policy field")
  | VErr.missingPostgresSpec id => (id, "missing postgres spec")
  | VErr.missingSchema id => (id, "missing required field: schema")
  | VErr.missingUsecaseSpec id => (id, "missing usecase spec")
  | VErr.missingBindsTo id => (id, "missing required field: binds_to")
  | VErr.bindsToFormatA id raw =>
    (id, "binds_to must be in format server-id:METHOD:/path, got " ++
      quoteStr raw)
  | VErr.badMethodA id m =>
    (id, "invalid HTTP method " ++ quoteStr m ++ " in binds_to")
  | VErr.badPathA id p =>
    (id, "path in binds_to must start with /, got " ++ quoteStr p)
  | VErr.emptyBindsToB id => (id, "empty binds_to value")
  | VErr.bindsToFormatB id raw =>
    (id, "invalid binds_to format: " ++ raw ++
      " (expected server:METHOD:/path)")
  | VErr.badMethodB id m => (id, "invalid HTTP method: " ++ m)
  | VErr.badPathB id p => (id, "path must start with /: " ++ p)
  | VErr.bindsToKindMismatch id server k =>
    (id, "binds_to references " ++ quoteStr server ++ " which is " ++
      k.toGoString ++ ", expected http.server")
  | VErr.missingGoal id => (id, "missing required field: goal")
  | VErr.baNeedsServer =>
    ("", "better-auth middleware requires at least one http.server component")
  | VErr.baNeedsDrizzle =>
    ("", "better-auth middleware requires a postgres component with provider \"drizzle\"")

/-- The middleware-reference check shared by both validators (a resolved
reference of the wrong kind is flagged; unresolved references are not). -/
def mwRefErrs (t : SymbolTable) (id : String) (refs : List String) :
    List VErr :=
  refs.filterMap (fun ref =>
    match STLookup t ref with
    | some k =>
      if k ≠ Kind.middleware then some (VErr.mwMismatch id ref k) else none
    | none => none)

/-- Model of `(*IR).validateHTTPServer` (ir/validate.go). -/
def irValidateHTTPServer (i : IRm) (c : Component) : List VErr :=
  match c.httpServer with
  | none => [VErr.missingServerSpec c.id]
  | some s =>
    (if s.framework = "" then [VErr.missingFramework c.id] else []) ++
    (if s.port = 0 then [VErr.missingPort c.id] else []) ++
    (if s.port < 0 ∨ s.port > 65535 then [VErr.portRange c.id] else []) ++
    mwRefErrs i.symbols c.id (s.middleware.getD [])

/-- Model of `(*IR).validateMiddleware` (ir/validate.go). -/
def irValidateMiddleware (c : Component) : List VErr :=
  match c.middleware with
  | none => [VErr.missingMiddlewareSpec c.id]
  | some s =>
    (if s.provider = "" then [VErr.missingProvider c.id] else []) ++
    (if s.provider = "better-auth" then
      (if s.config = "" then [VErr.baConfig c.id] else [])
    else if s.provider = "casbin" then
      (if s.model = "" then [VErr.casbinModel c.id] else []) ++
      (if s.policy = "" then [VErr.casbinPolicy c.id] else [])
    else [])

/-- Model of `(*IR).validatePostgres` (ir/validate.go). -/
def irValidatePostgres (c : Component) : List VErr :=
  match c.postgres with
  | none => [VErr.missingPostgresSpec c.id]
  | some s =>
    (if s.provider = "" then [VErr.missingProvider c.id] else []) ++
    (if s.schema = "" then [VErr.missingSchema c.id] else [])

/-- Model of `(*IR).validateUsecase` (ir/validate.go): its own
`validateBindsTo` check, then the server-kind check via
`extractServerFromBinding`, then the goal and middleware checks. -/
def irValidateUsecase (i : IRm) (c : Component) : List VErr :=
  match c.usecase with
  | none => [VErr.missingUsecaseSpec c.id]
  | some u =>
    (if u.bindsTo = "" then [VErr.missingBindsTo c.id]
    else
      (match validateBindsTo u.bindsTo with
      | some (VBErr.format raw) => [VErr.bindsToFormatA c.id raw]
      | some (VBErr.badMethod m) => [VErr.badMethodA c.id m]
      | some (VBErr.badPath p) => [VErr.badPathA c.id p]
      | none => []) ++
      (let sid := extractServerFromBinding u.bindsTo
      if sid ≠ "" then
        match STLookup i.symbols sid with
        | some k =>
          if k ≠ Kind.httpServer then
            [VErr.bindsToKindMismatch c.id sid k]
          else []
        | none => []
      else [])) ++
    (if u.goal = "" then [VErr.missingGoal c.id] else []) ++
    mwRefErrs i.symbols c.id (u.middleware.getD [])

/-- Model of `(*IR).validateComponent` (ir/validate.go). -/
def irValidateComponent (i : IRm) (c : Component) : List VErr :=
  match c.kind with
  | Kind.httpServer => irValidateHTTPServer i c
  | Kind.middleware => irValidateMiddleware c
  | Kind.postgres => irValidatePostgres c
  | Kind.usecase => irValidateUsecase i c

/-- Model of `(*IR).validateBetterAuthRequirements` (ir/validate.go). -/
def irValidateBetterAuth (i : IRm) : List VErr :=
  let baIDs := (i.components.filter (fun c =>
    c.kind == Kind.middleware &&
      (match c.middleware with
      | some m => m.provider == "better-auth"
      | none => false))).map (fun c => c.id)
  if baIDs.isEmpty then []
  else
    let req := i.components.any (fun c =>
      (c.kind == Kind.httpServer &&
        (match c.httpServer with
        | some s => (s.middleware.getD []).any (fun r => baIDs.contains r)
        | none => false)) ||
      (c.kind == Kind.usecase &&
        (match c.usecase with
        | some u => (u.middleware.getD []).any (fun r => baIDs.contains r)
        | none => false)))
    if !req then []
    else
      let hasServer := i.components.any (fun c =>
        c.kind == Kind.httpServer && c.httpServer.isSome)
      let hasDrizzle := i.components.any (fun c =>
        c.kind == Kind.postgres &&
          (match c.postgres with
          | some p => p.provider == "drizzle"
          | none => false))
      (if !hasServer then [VErr.baNeedsServer] else []) ++
      (if !hasDrizzle then [VErr.baNeedsDrizzle] else [])

/-- Model of `(*IR).Validate` (ir/validate.go): cycle errors, then
per-component errors in component order, then the cross-component
better-auth rule. -/
def irValidate (i : IRm) : List VErr :=
  ((DetectCycles i.toGraph).map (fun cyc => VErr.cycle cyc)) ++
    (i.components.foldl (fun acc c => acc ++ irValidateComponent i c) []) ++
    irValidateBetterAuth i

/-- Model of `(*IRValidator).validateHTTPServer` (validator/ir.go);
identical to the ir-package version. -/
def vValidateHTTPServer (i : IRm) (c : Component) : List VErr :=
  match c.httpServer with
  | none => [VErr.missingServerSpec c.id]
  | some s =>
    (if s.framework = "" then [VErr.missingFramework c.id] else []) ++
    (if s.port = 0 then [VErr.missingPort c.id] else []) ++
    (if s.port < 0 ∨ s.port > 65535 then [VErr.portRange c.id] else []) ++
    mwRefErrs i.symbols c.id (s.middleware.getD [])

/-- Model of `(*IRValidator).validateMiddleware` (validator/ir.go);
identical to the ir-package version. -/
def vValidateMiddleware (c : Component) : List VErr :=
  match c.middleware with
  | none => [VErr.missingMiddlewareSpec c.id]
  | some s =>
    (if s.provider = "" then [VErr.missingProvider c.id] else []) ++
    (if s.provider = "better-auth" then
      (if s.config = "" then [VErr.baConfig c.id] else [])
    else if s.provider = "casbin" then
      (if s.model = "" then [VErr.casbinModel c.id] else []) ++
      (if s.policy = "" then [VErr.casbinPolicy c.id] else [])
    else [])

/-- Model of `(*IRValidator).validatePostgres` (validator/ir.go);
identical to the ir-package version. -/
def vValidatePostgres (c : Component) : List VErr :=
  match c.postgres with
  | none => [VErr.missingPostgresSpec c.id]
  | some s =>
    (if s.provider = "" then [VErr.missingProvider c.id] else []) ++
    (if s.schema = "" then [VErr.missingSchema c.id] else [])

/-- The error message of `ParseBinding` as recorded by validator/ir.go. -/
def pbErrToVErr (id : String) : PBErr → VErr
  | PBErr.empty => VErr.emptyBindsToB id
  | PBErr.format raw => VErr.bindsToFormatB id raw
  | PBErr.badMethod m => VErr.badMethodB id m
  | PBErr.badPath p => VErr.badPathB id p

/-- Model of `(*IRValidator).validateUsecase` (validator/ir.go): the
canonical `ParseBinding` supplies both the error and the server segment
(empty on failure, skipping the kind check). -/
def vValidateUsecase (i : IRm) (c : Component) : List VErr :=
  match c.usecase with
  | none => [VErr.missingUsecaseSpec c.id]
  | some u =>
    (if u.bindsTo = "" then [VErr.missingBindsTo c.id]
    else
      (match ParseBinding u.bindsTo with
      | Except.error e => [pbErrToVErr c.id e]
      | Except.ok _ => []) ++
      (let sid := match ParseBinding u.bindsTo with
        | Except.ok r => r.1
        | Except.error _ => ""
      if sid ≠ "" then
        match STLookup i.symbols sid with
        | some k =>
          if k ≠ Kind.httpServer then
            [VErr.bindsToKindMismatch c.id sid k]
          else []
        | none => []
      else [])) ++
    (if u.goal = "" then [VErr.missingGoal c.id] else []) ++
    mwRefErrs i.symbols c.id (u.middleware.getD [])

/-- Model of `(*IRValidator).validateComponent` (validator/ir.go). -/
def vValidateComponent (i : IRm) (c : Component) : List VErr :=
  match c.kind with
  | Kind.httpServer => vValidateHTTPServer i c
  | Kind.middleware => vValidateMiddleware c
  | Kind.postgres => vValidatePostgres c
  | Kind.usecase => vValidateUsecase i c

/-- Model of `(*IRValidator).validateBetterAuthRequirements`
(validator/ir.go); identical to the ir-package version. -/
def vValidateBetterAuth (i : IRm) : List VErr :=
  let baIDs := (i.components.filter (fun c =>
    c.kind == Kind.middleware &&
      (match c.middleware with
      | some m => m.provider == "better-auth"
      | none => false))).map (fun c => c.id)
  if baIDs.isEmpty then []
  else
    let req := i.components.any (fun c =>
      (c.kind == Kind.httpServer &&
        (match c.httpServer with
        | some s => (s.middleware.getD []).any (fun r => baIDs.contains r)
        | none => false)) ||
      (c.kind == Kind.usecase &&
        (match c.usecase with
        | some u => (u.middleware.getD []).any (fun r => baIDs.contains r)
        | none => false)))
    if !req then []
    else
      let hasServer := i.components.any (fun c =>
        c.kind == Kind.httpServer && c.httpServer.isSome)
      let hasDrizzle := i.components.any (fun c =>
        c.kind == Kind.postgres &&
          (match c.postgres with
          | some p => p.provider == "drizzle"
          | none => false))
      (if !hasServer then [VErr.baNeedsServer] else []) ++
      (if !hasDrizzle then [VErr.baNeedsDrizzle] else [])

/-- Model of `(*IRValidator).Validate` (validator/ir.go). -/
def vValidate (i : IRm) : List VErr :=
  ((DetectCycles i.toGraph).map (fun cyc => VErr.cycle cyc)) ++
    (i.components.foldl (fun acc c => acc ++ vValidateComponent i c) []) ++
    vValidateBetterAuth i

/-- Every middleware-reference error is a `mwMismatch` for the inspected
component. -/
lemma mwRefErrs_mem {t : SymbolTable} {id : String} {refs : List String}
    {e : VErr} (h : e ∈ mwRefErrs t id refs) :
    ∃ r k, e = VErr.mwMismatch id r k := by
  unfold mwRefErrs at h
  rcases List.mem_filterMap.mp h with ⟨r, _, hsome⟩
  rcases hl : STLookup t r with _ | k <;> rw [hl] at hsome
  · cases hsome
  · dsimp only at hsome
    split at hsome
    · exact ⟨r, k, (Option.some.inj hsome).symm⟩
    · cases hsome

/-- Membership in a conditional singleton forces the condition and the
value. -/
lemma mem_ite_nil_imp {α : Type} {p : Prop} [Decidable p] {a b : α}
    (h : a ∈ (if p then [b] else ([] : List α))) : p ∧ a = b := by
  by_cases hp : p
  · rw [if_pos hp] at h
    exact ⟨hp, by simpa using h⟩
  · rw [if_neg hp] at h
    cases h

/-- A held condition puts the value into the conditional singleton. -/
lemma mem_ite_nil_self {α : Type} {p : Prop} [Decidable p] (hp : p)
    (b : α) : b ∈ (if p then [b] else ([] : List α)) := by
  rw [if_pos hp]
  exact List.mem_singleton_self b

/-- C8: for an http.server component with a populated spec, both
validators agree, a port error (missing or out-of-range) is reported
exactly when the port is outside [1, 65535], and the framework error is
reported exactly when the framework identifier is empty. -/
theorem validateHTTPServer_port_framework (i : IRm) (c : Component)
    (s : HTTPServerSpec) (hs : c.httpServer = some s) :
    vValidateHTTPServer i c = irValidateHTTPServer i c ∧
    ((VErr.missingPort c.id ∈ irValidateHTTPServer i c ∨
        VErr.portRange c.id ∈ irValidateHTTPServer i c) ↔
      ¬(1 ≤ s.port ∧ s.port ≤ 65535)) ∧
    (VErr.missingFramework c.id ∈ irValidateHTTPServer i c ↔
      s.framework = "") := by
  have hun : irValidateHTTPServer i c =
      (if s.framework = "" then [VErr.missingFramework c.id] else []) ++
      ((if s.port = 0 then [VErr.missingPort c.id] else []) ++
      ((if s.port < 0 ∨ s.port > 65535 then [VErr.portRange c.id] else []) ++
      mwRefErrs i.symbols c.id (s.middleware.getD []))) := by
    unfold irValidateHTTPServer
    rw [hs]
    dsimp only
    rw [List.append_assoc, List.append_assoc]
  refine ⟨rfl, ?_, ?_⟩
  · constructor
    · intro h hcon
      obtain ⟨h1, h2⟩ := hcon
      have h0 : ¬ s.port = 0 := by omega
      have hrng : ¬(s.port < 0 ∨ s.port > 65535) := by omega
      rw [hun] at h
      rcases h with h | h
      · rcases List.mem_append.mp h with h | h
        · exact VErr.noConfusion (mem_ite_nil_imp h).2
        · rcases List.mem_append.mp h with h | h
          · exact h0 (mem_ite_nil_imp h).1
          · rcases List.mem_append.mp h with h | h
            · exact hrng (mem_ite_nil_imp h).1
            · rcases mwRefErrs_mem h with ⟨r, k, hk⟩
              exact VErr.noConfusion hk
      · rcases List.mem_append.mp h with h | h
        · exact VErr.noConfusion (mem_ite_nil_imp h).2
        · rcases List.mem_append.mp h with h | h
          · exact VErr.noConfusion (mem_ite_nil_imp h).2
          · rcases List.mem_append.mp h with h | h
            · exact hrng (mem_ite_nil_imp h).1
            · rcases mwRefErrs_mem h with ⟨r, k, hk⟩
              exact VErr.noConfusion hk
    · intro hcon
      rw [hun]
      by_cases h0 : s.port = 0
      · left
        exact List.mem_append.mpr (Or.inr (List.mem_append.mpr
          (Or.inl (mem_ite_nil_self h0 _))))
      · right
        have hrng : s.port < 0 ∨ s.port > 65535 := by omega
        exact List.mem_append.mpr (Or.inr (List.mem_append.mpr
          (Or.inr (List.mem_append.mpr (Or.inl (mem_ite_nil_self hrng _))))))
  · constructor
    · intro h
      rw [hun] at h
      rcases List.mem_append.mp h with h | h
      · exact (mem_ite_nil_imp h).1
      · rcases List.mem_append.mp h with h | h
        · exact VErr.noConfusion (mem_ite_nil_imp h).2
        · rcases List.mem_append.mp h with h | h
          · exact VErr.noConfusion (mem_ite_nil_imp h).2
          · rcases mwRefErrs_mem h with ⟨r, k, hk⟩
            exact VErr.noConfusion hk
    · intro hf
      rw [hun]
      exact List.mem_append.mpr (Or.inl (mem_ite_nil_self hf _))

/-- An http.server spec with empty framework and zero port. -/
def wSrvSpecBad : HTTPServerSpec :=
  { framework := "", port := 0, openapi := "", middleware := none,
    dependsOn := none, parsedOpenAPI := none }

/-- A server component carrying `wSrvSpecBad`. -/
def wSrvBad : Component :=
  { id := "api", kind := Kind.httpServer, dependencies := [],
    dependents := [], httpServer := some wSrvSpecBad, middleware := none,
    postgres := none, usecase := none }

/-- A one-component IR around `wSrvBad`. -/
def wIrC8 : IRm :=
  { components := [wSrvBad], edges := [],
    symbols := [("api", Kind.httpServer)] }

/-- C8 witness: the characterisation applied to a concrete server whose
framework is empty and whose port is 0. -/
theorem validateHTTPServer_port_framework_witness :
    vValidateHTTPServer wIrC8 wSrvBad = irValidateHTTPServer wIrC8 wSrvBad ∧
    ((VErr.missingPort "api" ∈ irValidateHTTPServer wIrC8 wSrvBad ∨
        VErr.portRange "api" ∈ irValidateHTTPServer wIrC8 wSrvBad) ↔
      ¬(1 ≤ wSrvSpecBad.port ∧ wSrvSpecBad.port ≤ 65535)) ∧
    (VErr.missingFramework "api" ∈ irValidateHTTPServer wIrC8 wSrvBad ↔
      wSrvSpecBad.framework = "") :=
  validateHTTPServer_port_framework wIrC8 wSrvBad wSrvSpecBad rfl

/-- C9: for a middleware component whose provider is "casbin", both
validators agree; with a policy set but no model, validation yields
exactly the single model error; with both empty, exactly the model error
followed by the policy error. -/
theorem validateMiddleware_casbin (c : Component) (s : MiddlewareSpec)
    (hs : c.middleware = some s) (hp : s.provider = "casbin") :
    vValidateMiddleware c = irValidateMiddleware c ∧
    (s.policy ≠ "" → s.model = "" →
      irValidateMiddleware c = [VErr.casbinModel c.id]) ∧
    (s.model = "" → s.policy = "" →
      irValidateMiddleware c = [VErr.casbinModel c.id,
        VErr.casbinPolicy c.id]) := by
  refine ⟨rfl, ?_, ?_⟩
  · intro hpol hm
    unfold irValidateMiddleware
    rw [hs]
    dsimp only
    rw [hp]
    rw [if_neg (by decide : ¬("casbin" : String) = ""),
      if_neg (by decide : ¬("casbin" : String) = "better-auth"),
      if_pos (rfl : ("casbin" : String) = "casbin"),
      if_pos hm, if_neg hpol]
    rfl
  · intro hm hpol
    unfold irValidateMiddleware
    rw [hs]
    dsimp only
    rw [hp]
    rw [if_neg (by decide : ¬("casbin" : String) = ""),
      if_neg (by decide : ¬("casbin" : String) = "better-auth"),
      if_pos (rfl : ("casbin" : String) = "casbin"),
      if_pos hm, if_pos hpol]
    rfl

/-- A casbin middleware spec with a policy but no model. -/
def wCasbinSpecPolicyOnly : MiddlewareSpec :=
  { provider := "casbin", config := "", model := "", policy := "p.csv",
    dependsOn := none }

/-- A casbin middleware spec with neither model nor policy. -/
def wCasbinSpecNeither : MiddlewareSpec :=
  { provider := "casbin", config := "", model := "", policy := "",
    dependsOn := none }

/-- A middleware component carrying `wCasbinSpecPolicyOnly`. -/
def wCasbinPolicyOnly : Component :=
  { id := "mw.authz", kind := Kind.middleware, dependencies := [],
    dependents := [], httpServer := none,
    middleware := some wCasbinSpecPolicyOnly, postgres := none,
    usecase := none }

/-- A middleware component carrying `wCasbinSpecNeither`. -/
def wCasbinNeither : Component :=
  { id := "mw.authz", kind := Kind.middleware, dependencies := [],
    dependents := [], httpServer := none,
    middleware := some wCasbinSpecNeither, postgres := none,
    usecase := none }

/-- C9 witness: concrete casbin middlewares with only a policy, and with
neither model nor policy. -/
theorem validateMiddleware_casbin_witness :
    irValidateMiddleware wCasbinPolicyOnly = [VErr.casbinModel "mw.authz"] ∧
    irValidateMiddleware wCasbinNeither =
      [VErr.casbinModel "mw.authz", VErr.casbinPolicy "mw.authz"] :=
  ⟨(validateMiddleware_casbin wCasbinPolicyOnly wCasbinSpecPolicyOnly rfl
      rfl).2.1 (by decide) rfl,
    (validateMiddleware_casbin wCasbinNeither wCasbinSpecNeither rfl
      rfl).2.2 rfl rfl⟩

/-- When the canonical `ParseBinding` succeeds, the ir-package
`validateBindsTo` accepts the same value. -/
lemma validateBindsTo_none_of_ok {s : String}
    {r : String × String × String}
    (h : ParseBinding s = Except.ok r) : validateBindsTo s = none := by
  unfold ParseBinding at h
  by_cases hs : s = ""
  · rw [if_pos hs] at h
    cases h
  · rw [if_neg hs] at h
    unfold validateBindsTo
    rcases hsp : splitOnColon s with _ | ⟨a, _ | ⟨b, _ | ⟨c, rest⟩⟩⟩ <;>
      rw [hsp] at h
    · cases h
    · cases h
    · cases h
    · dsimp only at h ⊢
      by_cases hm : b ∈ validMethods
      · rw [if_pos hm] at h ⊢
        by_cases hpp : startsWithSlash (joinColon (c :: rest))
        · rw [if_pos hpp]
        · rw [if_neg hpp] at h
          cases h
      · rw [if_neg hm] at h
        cases h

/-- When `ParseBinding` succeeds the two `validateUsecase`
implementations coincide. -/
lemma validateUsecase_agree (i : IRm) (c : Component)
    (h : ∀ u, c.usecase = some u →
      u.bindsTo = "" ∨ ∃ r, ParseBinding u.bindsTo = Except.ok r) :
    vValidateUsecase i c = irValidateUsecase i c := by
  unfold vValidateUsecase irValidateUsecase
  rcases hu : c.usecase with _ | u
  · rfl
  · dsimp only
    rcases h u hu with hb | ⟨r, hr⟩
    · rw [if_pos hb, if_pos hb]
    · obtain ⟨s0, m0, p0⟩ := r
      have hne : u.bindsTo ≠ "" := by
        intro hb
        rw [ParseBinding, if_pos hb] at hr
        cases hr
      obtain ⟨_, _, hex⟩ := ParseBinding_ok_props hr
      rw [if_neg hne, if_neg hne, hr, validateBindsTo_none_of_ok hr, hex]

/-- The two `validateComponent` implementations coincide whenever the
usecase hypothesis of `validateUsecase_agree` holds. -/
lemma validateComponent_agree (i : IRm) (c : Component)
    (h : ∀ u, c.usecase = some u →
      u.bindsTo = "" ∨ ∃ r, ParseBinding u.bindsTo = Except.ok r) :
    vValidateComponent i c = irValidateComponent i c := by
  unfold vValidateComponent irValidateComponent
  rcases c.kind with _ | _ | _ | _
  · rfl
  · rfl
  · rfl
  · exact validateUsecase_agree i c h

/-- Accumulating folds over pointwise-equal error producers coincide. -/
lemma foldl_append_congr {α : Type} (f g : α → List VErr) (l : List α)
    (h : ∀ c ∈ l, f c = g c) :
    ∀ acc : List VErr,
      l.foldl (fun a c => a ++ f c) acc =
        l.foldl (fun a c => a ++ g c) acc := by
  induction l with
  | nil => intro acc; rfl
  | cons x xs ih =>
    intro acc
    rw [List.foldl_cons, List.foldl_cons, h x (List.mem_cons_self x xs)]
    exact ih (fun c hc => h c (List.mem_cons_of_mem x hc)) _

/-- A postgres component with a populated spec (no errors of its own). -/
def wPgComp : Component :=
  { id := "db", kind := Kind.postgres, dependencies := [],
    dependents := [], httpServer := none, middleware := none,
    postgres := some { provider := "p", schema := "s" }, usecase := none }

/-- The usecase spec whose binds_to has an invalid HTTP method. -/
def wBadUsecaseSpec : UsecaseSpec :=
  { bindsTo := "db:FOO:/x", middleware := none, goal := "g", actor := "",
    preconditions := none, acceptanceCriteria := none,
    postconditions := none, binding := none }

/-- A usecase whose binds_to has an invalid HTTP method and a server
segment that resolves to a postgres symbol. -/
def wBadUsecase : Component :=
  { id := "u", kind := Kind.usecase, dependencies := [], dependents := [],
    httpServer := none, middleware := none, postgres := none,
    usecase := some wBadUsecaseSpec }

/-- The IR on which the two validators disagree. -/
def wVIr : IRm :=
  { components := [wPgComp, wBadUsecase], edges := [],
    symbols := [("db", Kind.postgres), ("u", Kind.usecase)] }

/-- C10: the claimed equivalence fails.  On an IR with a usecase bound to
`"db:FOO:/x"` (invalid method, server segment resolving to a postgres
component), the ir-package validator reports two errors (its own
bad-method message plus the kind mismatch, since `extractServerFromBinding`
still yields `"db"`), while the validator-package one reports a single,
differently-worded bad-method error (`ParseBinding` fails, so its server
segment is empty and the kind check is skipped): the rendered message
collections differ even as multisets. -/
theorem validators_differ_counterexample :
    irValidate wVIr = [VErr.badMethodA "u" "FOO",
      VErr.bindsToKindMismatch "u" "db" Kind.postgres] ∧
    vValidate wVIr = [VErr.badMethodB "u" "FOO"] ∧
    ¬ ((irValidate wVIr).map VErr.render).Perm
        ((vValidate wVIr).map VErr.render) :=
  ⟨rfl, rfl, by decide⟩

/-- C10 (amended): on every IR whose usecases have an empty or
well-formed (accepted by `ParseBinding`) binds_to value, the two
validators return identical error lists, hence identical rendered
message collections. -/
theorem validators_agree_amended (i : IRm)
    (h : ∀ c ∈ i.components, ∀ u, c.usecase = some u →
      u.bindsTo = "" ∨ ∃ r, ParseBinding u.bindsTo = Except.ok r) :
    vValidate i = irValidate i ∧
    (vValidate i).map VErr.render = (irValidate i).map VErr.render := by
  have hv : vValidate i = irValidate i := by
    unfold vValidate irValidate
    rw [foldl_append_congr (fun c => vValidateComponent i c)
      (fun c => irValidateComponent i c) i.components
      (fun c hc => validateComponent_agree i c (h c hc)) []]
    rfl
  exact ⟨hv, by rw [hv]⟩

/-- The usecase spec of the C10 witness (well-formed binds_to). -/
def wGoodUsecaseSpec : UsecaseSpec :=
  { bindsTo := "api:GET:/x", middleware := none, goal := "g", actor := "",
    preconditions := none, acceptanceCriteria := none,
    postconditions := none, binding := none }

/-- A well-bound usecase (valid method, slash path, http.server target). -/
def wGoodUsecase : Component :=
  { id := "u", kind := Kind.usecase, dependencies := [], dependents := [],
    httpServer := none, middleware := none, postgres := none,
    usecase := some wGoodUsecaseSpec }

/-- The IR for the C10 witness: a server plus a well-bound usecase. -/
def wVIrGood : IRm :=
  { components := [wSrvBad, wGoodUsecase], edges := [],
    symbols := [("api", Kind.httpServer), ("u", Kind.usecase)] }

/-- C10 witness: the amended agreement applied to a concrete IR whose
single usecase has a well-formed binds_to. -/
theorem validators_agree_amended_witness :
    vValidate wVIrGood = irValidate wVIrGood ∧
    (vValidate wVIrGood).map VErr.render =
      (irValidate wVIrGood).map VErr.render :=
  validators_agree_amended wVIrGood (by
    intro c hc u hu
    simp only [wVIrGood, List.mem_cons, List.not_mem_nil, or_false] at hc
    rcases hc with rfl | rfl
    · exact Option.noConfusion hu
    · have hu' : u = wGoodUsecaseSpec := (Option.some.inj hu).symm
      rw [hu']
      exact Or.inr ⟨("api", "GET", "/x"), rfl⟩)

/-- Joining JSON array elements with commas (`json.Marshal` array
encoding). -/
def joinComma : List String → String
  | [] => ""
  | [x] => x
  | x :: xs => x ++ "," ++ joinComma xs

/-- JSON string encoding (escaping of exotic characters is not
modelled; the claims about hashing depend only on injectivity over the
plain identifiers involved). -/
def jstr (s : String) : String := "\"" ++ s ++ "\""

/-- Model of `sortedCopy` (cache.go): `nil` stays `nil`, a present slice
is sorted ascending (`sort.Strings`); an empty present slice stays the
empty slice. -/
def sortedCopy : Option (List String) → Option (List String)
  | none => none
  | some xs => some (xs.insertionSort (· ≤ ·))

/-- JSON encoding of an optional string slice: Go marshals a `nil` slice
as `null` and a present slice as an array. -/
def jsonStrings : Option (List String) → String
  | none => "null"
  | some xs => "[" ++ joinComma (xs.map jstr) ++ "]"

/-- Model of `parser.Spec` (the fields `ComputeSpecHash` reads). -/
structure PSpec where
  version : String
  name : String
  description : String
  components : List RawComponent
deriving Repr, DecidableEq

/-- The canonical JSON object of one `(id, kind)` entry of the spec hash
(map keys marshal in sorted order: `id` before `kind`). -/
def specPairCanonical (p : String × String) : String :=
  "\x7b\"id\":" ++ jstr p.1 ++ ",\"kind\":" ++ jstr p.2 ++ "\x7d"

/-- Lexicographic strict comparison of character lists (Go `<` on
strings; bytes are modelled by code points, which agrees on ASCII). -/
def charListLt : List Char → List Char → Bool
  | [], [] => false
  | [], _ :: _ => true
  | _ :: _, [] => false
  | a :: as, b :: bs =>
    if a < b then true
    else if b < a then false
    else charListLt as bs

/-- Go string `<`, structurally recursive so that concrete spec hashes
evaluate. -/
def strLt (a b : String) : Bool := charListLt a.data b.data

/-- The comparison `components[i]["id"] < components[j]["id"]` of the
`sort.Slice` call in `ComputeSpecHash`. -/
abbrev specKeyLt : (String × String) → (String × String) → Prop :=
  fun a b => strLt a.1 b.1 = true

/-- Model of `ComputeSpecHash` (cache.go): the canonical JSON of
`{version, name, description, components}` with the `(id, kind)` pairs
sorted by id and map keys marshalled alphabetically.  The SHA-256 digest
is modelled by the canonical encoding itself (the digest of an injective
encoding; collisions are out of scope), so digest equality is encoding
equality. -/
def ComputeSpecHash (sp : PSpec) : String :=
  "\x7b\"components\":[" ++
    joinComma ((((sp.components.map (fun c => (c.id, c.kind))).insertionSort
      specKeyLt).map specPairCanonical)) ++
    "],\"description\":" ++ jstr sp.description ++
    ",\"name\":" ++ jstr sp.name ++
    ",\"version\":" ++ jstr sp.version ++ "\x7d"

/-- The kind-specific `"spec"` entry of `ComputeComponentHash`
(cache.go): present exactly when the spec pointer matching the kind is
non-nil, with map keys marshalled alphabetically and list fields passed
through `sortedCopy`. -/
def componentSpecJSON (c : Component) : Option String :=
  match c.kind with
  | Kind.httpServer =>
    match c.httpServer with
    | none => none
    | some s => some ("\x7b\"depends_on\":" ++
        jsonStrings (sortedCopy s.dependsOn) ++
        ",\"framework\":" ++ jstr s.framework ++
        ",\"middleware\":" ++ jsonStrings (sortedCopy s.middleware) ++
        ",\"openapi\":" ++ jstr s.openapi ++
        ",\"port\":" ++ toString s.port ++ "\x7d")
  | Kind.middleware =>
    match c.middleware with
    | none => none
    | some s => some ("\x7b\"config\":" ++ jstr s.config ++
        ",\"depends_on\":" ++ jsonStrings (sortedCopy s.dependsOn) ++
        ",\"model\":" ++ jstr s.model ++
        ",\"policy\":" ++ jstr s.policy ++
        ",\"provider\":" ++ jstr s.provider ++ "\x7d")
  | Kind.postgres =>
    match c.postgres with
    | none => none
    | some s => some ("\x7b\"provider\":" ++ jstr s.provider ++
        ",\"schema\":" ++ jstr s.schema ++ "\x7d")
  | Kind.usecase =>
    match c.usecase with
    | none => none
    | some u => some ("\x7b\"acceptance_criteria\":" ++
        jsonStrings (sortedCopy u.acceptanceCriteria) ++
        ",\"actor\":" ++ jstr u.actor ++
        ",\"binds_to\":" ++ jstr u.bindsTo ++
        ",\"goal\":" ++ jstr u.goal ++
        ",\"middleware\":" ++ jsonStrings (sortedCopy u.middleware) ++
        ",\"postconditions\":" ++ jsonStrings (sortedCopy u.postconditions) ++
        ",\"preconditions\":" ++ jsonStrings (sortedCopy u.preconditions) ++
        "\x7d")

/-- Model of `ComputeComponentHash` (cache.go); as with the spec hash,
the SHA-256 digest is modelled by the canonical encoding itself. -/
def ComputeComponentHash (c : Component) : String :=
  "\x7b\"id\":" ++ jstr c.id ++ ",\"kind\":" ++ jstr c.kind.toGoString ++
    (match componentSpecJSON c with
    | none => ""
    | some sp => ",\"spec\":" ++ sp) ++ "\x7d"

/-- `charListLt` is asymmetric. -/
lemma charListLt_asymm :
    ∀ {as bs : List Char}, charListLt as bs = true →
      charListLt bs as = false := by
  intro as
  induction as with
  | nil =>
    intro bs h
    cases bs with
    | nil => cases h
    | cons b bs => rfl
  | cons a as ih =>
    intro bs h
    cases bs with
    | nil => cases h
    | cons b bs =>
      rw [charListLt] at h
      rw [charListLt]
      by_cases hab : a < b
      · rw [if_neg (lt_asymm hab), if_pos hab]
      · rw [if_neg hab] at h
        by_cases hba : b < a
        · rw [if_pos hba] at h
          cases h
        · rw [if_neg hba] at h
          rw [if_neg hba, if_neg hab]
          exact ih h

/-- `charListLt` is transitive. -/
lemma charListLt_trans :
    ∀ {as bs cs : List Char}, charListLt as bs = true →
      charListLt bs cs = true → charListLt as cs = true := by
  intro as
  induction as with
  | nil =>
    intro bs cs h1 h2
    cases bs with
    | nil => cases h1
    | cons b bs =>
      cases cs with
      | nil => cases h2
      | cons c cs => rfl
  | cons a as ih =>
    intro bs cs h1 h2
    cases bs with
    | nil => cases h1
    | cons b bs =>
      cases cs with
      | nil => cases h2
      | cons c cs =>
        rw [charListLt] at h1 h2
        rw [charListLt]
        by_cases hab : a < b
        · by_cases hbc : b < c
          · rw [if_pos (lt_trans hab hbc)]
          · rw [if_neg hbc] at h2
            by_cases hcb : c < b
            · rw [if_pos hcb] at h2
              cases h2
            · have hbceq : b = c := le_antisymm (not_lt.mp hcb) (not_lt.mp hbc)
              rw [if_pos (hbceq ▸ hab)]
        · rw [if_neg hab] at h1
          by_cases hba : b < a
          · rw [if_pos hba] at h1
            cases h1
          · rw [if_neg hba] at h1
            have habeq : a = b := le_antisymm (not_lt.mp hba) (not_lt.mp hab)
            subst habeq
            by_cases hbc : a < c
            · rw [if_pos hbc]
            · rw [if_neg hbc] at h2
              by_cases hcb : c < a
              · rw [if_pos hcb] at h2
                cases h2
              · rw [if_neg hcb] at h2
                rw [if_neg hbc, if_neg hcb]
                exact ih h1 h2

/-- Distinct character lists compare one way or the other. -/
lemma charListLt_total_of_ne :
    ∀ {as bs : List Char}, as ≠ bs →
      charListLt as bs = true ∨ charListLt bs as = true := by
  intro as
  induction as with
  | nil =>
    intro bs h
    cases bs with
    | nil => exact absurd rfl h
    | cons b bs => exact Or.inl rfl
  | cons a as ih =>
    intro bs h
    cases bs with
    | nil => exact Or.inr rfl
    | cons b bs =>
      rcases lt_trichotomy a b with hab | hab | hab
      · exact Or.inl (by rw [charListLt, if_pos hab])
      · have hne : as ≠ bs := by
          intro he
          exact h (by rw [hab, he])
        rcases ih hne with h1 | h1
        · exact Or.inl (by
            rw [charListLt, if_neg (hab ▸ lt_irrefl a),
              if_neg (hab ▸ lt_irrefl a)]
            exact h1)
        · exact Or.inr (by
            rw [charListLt, if_neg (hab ▸ lt_irrefl a),
              if_neg (hab ▸ lt_irrefl a)]
            exact h1)
      · exact Or.inr (by rw [charListLt, if_pos hab])

/-- Equal character data means equal strings. -/
lemma string_eq_of_data_eq {a b : String} (h : a.data = b.data) : a = b := by
  cases a
  cases b
  exact congrArg String.mk h

/-- Inserting an element whose key differs from every key of a sorted
list keeps it sorted. -/
lemma orderedInsert_sorted_of_keys (x : String × String) :
    ∀ l : List (String × String), l.Sorted specKeyLt →
      (∀ y ∈ l, x.1 ≠ y.1) →
      (List.orderedInsert specKeyLt x l).Sorted specKeyLt := by
  intro l
  induction l with
  | nil =>
    intro _ _
    exact List.sorted_singleton x
  | cons y ys ih =>
    intro hs hne
    by_cases hxy : specKeyLt x y
    · rw [List.orderedInsert, if_pos hxy]
      refine List.sorted_cons.mpr ⟨?_, hs⟩
      intro z hz
      rcases List.mem_cons.mp hz with rfl | hz
      · exact hxy
      · exact charListLt_trans hxy ((List.sorted_cons.mp hs).1 z hz)
    · rw [List.orderedInsert, if_neg hxy]
      obtain ⟨hy, hys⟩ := List.sorted_cons.mp hs
      have hyx : specKeyLt y x := by
        have hd : x.1.data ≠ y.1.data := by
          intro hd
          exact hne y (List.mem_cons_self y ys) (string_eq_of_data_eq hd)
        rcases charListLt_total_of_ne hd with h1 | h1
        · exact absurd h1 hxy
        · exact h1
      refine List.sorted_cons.mpr
        ⟨?_, ih hys (fun z hz => hne z (List.mem_cons_of_mem y hz))⟩
      intro z hz
      rcases (List.mem_orderedInsert specKeyLt).mp hz with rfl | hz
      · exact hyx
      · exact hy z hz

/-- With pairwise-distinct keys, the id-sort of `ComputeSpecHash`
produces a `specKeyLt`-sorted list. -/
lemma insertionSort_sorted_of_keys_nodup :
    ∀ l : List (String × String), (l.map Prod.fst).Nodup →
      (List.insertionSort specKeyLt l).Sorted specKeyLt := by
  intro l
  induction l with
  | nil => intro _; exact List.sorted_nil
  | cons x xs ih =>
    intro hnd
    simp only [List.map_cons, List.nodup_cons] at hnd
    rw [List.insertionSort]
    apply orderedInsert_sorted_of_keys
    · exact ih hnd.2
    · intro y hy he
      have hy' : y ∈ xs :=
        (List.perm_insertionSort specKeyLt xs).mem_iff.mp hy
      exact hnd.1 (he ▸ List.mem_map_of_mem Prod.fst hy')

/-- With pairwise-distinct keys the id-sort is permutation-invariant. -/
lemma insertionSort_keyLt_eq {l1 l2 : List (String × String)}
    (hp : l1.Perm l2) (hnd : (l1.map Prod.fst).Nodup) :
    List.insertionSort specKeyLt l1 = List.insertionSort specKeyLt l2 := by
  have hnd2 : (l2.map Prod.fst).Nodup := (hp.map Prod.fst).nodup_iff.mp hnd
  refine @List.eq_of_perm_of_sorted _ specKeyLt
    ⟨fun a b h1 h2 => ?_⟩ _ _
    ((List.perm_insertionSort _ l1).trans
      (hp.trans (List.perm_insertionSort _ l2).symm))
    (insertionSort_sorted_of_keys_nodup l1 hnd)
    (insertionSort_sorted_of_keys_nodup l2 hnd2)
  have hf := charListLt_asymm h1
  have h2' : charListLt b.1.data a.1.data = true := h2
  rw [hf] at h2'
  cases h2'

/-- Both absent, or both present up to permutation. -/
def OptPerm : Option (List String) → Option (List String) → Prop
  | none, none => True
  | some xs, some ys => xs.Perm ys
  | _, _ => False

instance instDecOptPerm :
    (a b : Option (List String)) → Decidable (OptPerm a b)
  | none, none => isTrue trivial
  | none, some _ => isFalse (fun h => h)
  | some _, none => isFalse (fun h => h)
  | some xs, some ys => List.decidablePerm xs ys

/-- `sortedCopy` maps permuted present slices to the same slice. -/
lemma sortedCopy_perm {xs ys : List String} (h : xs.Perm ys) :
    sortedCopy (some xs) = sortedCopy (some ys) := by
  unfold sortedCopy
  dsimp only
  congr 1
  exact List.eq_of_perm_of_sorted
    ((List.perm_insertionSort (fun a b : String => a ≤ b) xs).trans
      (h.trans (List.perm_insertionSort (fun a b : String => a ≤ b) ys).symm))
    (List.sorted_insertionSort (fun a b : String => a ≤ b) xs)
    (List.sorted_insertionSort (fun a b : String => a ≤ b) ys)

/-- `sortedCopy` respects `OptPerm`. -/
lemma sortedCopy_optPerm {a b : Option (List String)} (h : OptPerm a b) :
    sortedCopy a = sortedCopy b := by
  rcases a with _ | xs <;> rcases b with _ | ys
  · rfl
  · exact h.elim
  · exact h.elim
  · exact sortedCopy_perm h

/-- Pointwise lifting of a relation to `Option`, requiring agreement of
presence. -/
def OptRel {α : Type} (R : α → α → Prop) : Option α → Option α → Prop
  | none, none => True
  | some a, some b => R a b
  | _, _ => False

/-- Equality of an http.server spec's hashed fields up to permutation of
its list fields. -/
def HSPerm (s1 s2 : HTTPServerSpec) : Prop :=
  s1.framework = s2.framework ∧ s1.port = s2.port ∧
  s1.openapi = s2.openapi ∧ OptPerm s1.middleware s2.middleware ∧
  OptPerm s1.dependsOn s2.dependsOn

/-- Equality of a middleware spec's hashed fields up to permutation of
its list field. -/
def MWPerm (s1 s2 : MiddlewareSpec) : Prop :=
  s1.provider = s2.provider ∧ s1.config = s2.config ∧
  s1.model = s2.model ∧ s1.policy = s2.policy ∧
  OptPerm s1.dependsOn s2.dependsOn

/-- Equality of a usecase spec's hashed fields up to permutation of its
list fields. -/
def UCPerm (u1 u2 : UsecaseSpec) : Prop :=
  u1.bindsTo = u2.bindsTo ∧ u1.goal = u2.goal ∧ u1.actor = u2.actor ∧
  OptPerm u1.middleware u2.middleware ∧
  OptPerm u1.preconditions u2.preconditions ∧
  OptPerm u1.acceptanceCriteria u2.acceptanceCriteria ∧
  OptPerm u1.postconditions u2.postconditions

/-- Two components agreeing on id, kind, and every spec field, with
list-valued fields only required to agree up to permutation. -/
def CompFieldPerm (c1 c2 : Component) : Prop :=
  c1.id = c2.id ∧ c1.kind = c2.kind ∧
  OptRel HSPerm c1.httpServer c2.httpServer ∧
  OptRel MWPerm c1.middleware c2.middleware ∧
  c1.postgres = c2.postgres ∧
  OptRel UCPerm c1.usecase c2.usecase

/-- The kind-specific canonical spec entry only depends on the hashed
fields, with list fields read through `sortedCopy`. -/
lemma componentSpecJSON_congr {c1 c2 : Component}
    (h : CompFieldPerm c1 c2) :
    componentSpecJSON c1 = componentSpecJSON c2 := by
  obtain ⟨_, hk, hhs, hmw, hpg, huc⟩ := h
  unfold componentSpecJSON
  rw [hk]
  rcases hck : c2.kind with _ | _ | _ | _
  · rcases h1 : c1.httpServer with _ | s1
    · rcases h2 : c2.httpServer with _ | s2
      · rfl
      · rw [h1, h2] at hhs
        exact hhs.elim
    · rcases h2 : c2.httpServer with _ | s2
      · rw [h1, h2] at hhs
        exact hhs.elim
      · rw [h1, h2] at hhs
        obtain ⟨hf, hp, ho, hm, hd⟩ := hhs
        dsimp only
        rw [hf, hp, ho, sortedCopy_optPerm hm, sortedCopy_optPerm hd]
  · rcases h1 : c1.middleware with _ | s1
    · rcases h2 : c2.middleware with _ | s2
      · rfl
      · rw [h1, h2] at hmw
        exact hmw.elim
    · rcases h2 : c2.middleware with _ | s2
      · rw [h1, h2] at hmw
        exact hmw.elim
      · rw [h1, h2] at hmw
        obtain ⟨hp, hc, hm, hpo, hd⟩ := hmw
        dsimp only
        rw [hp, hc, hm, hpo, sortedCopy_optPerm hd]
  · rw [hpg]
  · rcases h1 : c1.usecase with _ | u1
    · rcases h2 : c2.usecase with _ | u2
      · rfl
      · rw [h1, h2] at huc
        exact huc.elim
    · rcases h2 : c2.usecase with _ | u2
      · rw [h1, h2] at huc
        exact huc.elim
      · rw [h1, h2] at huc
        obtain ⟨hb, hg, ha, hm, hpre, hacc, hpost⟩ := huc
        dsimp only
        rw [hb, hg, ha, sortedCopy_optPerm hm, sortedCopy_optPerm hpre,
          sortedCopy_optPerm hacc, sortedCopy_optPerm hpost]

/-- Two raw components sharing the ID "a" with different kinds. -/
def wSpecDup1 : PSpec :=
  ⟨"1", "n", "d", [⟨"a", "http.server", {}⟩, ⟨"a", "usecase", {}⟩]⟩

/-- `wSpecDup1` with its component list reversed. -/
def wSpecDup2 : PSpec :=
  ⟨"1", "n", "d", [⟨"a", "usecase", {}⟩, ⟨"a", "http.server", {}⟩]⟩

/-- C6: the order-independence clause fails as stated.  The spec-hash
sort compares only component IDs, so two components sharing an ID keep
their input order (the insertion sort, like Go's for a two-element
slice, is stable); permuting them permutes the canonical encoding and
changes the hash. -/
theorem specHash_perm_counterexample :
    wSpecDup1.components.Perm wSpecDup2.components ∧
    wSpecDup1.version = wSpecDup2.version ∧
    wSpecDup1.name = wSpecDup2.name ∧
    wSpecDup1.description = wSpecDup2.description ∧
    ComputeSpecHash wSpecDup1 ≠ ComputeSpecHash wSpecDup2 :=
  ⟨by decide, rfl, rfl, rfl, by decide⟩

/-- C6 (amended): hashing is deterministic; the spec hash is invariant
under permutations of the component list provided component IDs are
pairwise distinct; the component hash is invariant under permutations of
any list-valued field unconditionally. -/
theorem cache_hash_order_independence_amended (sp1 sp2 : PSpec)
    (hv : sp1.version = sp2.version) (hn : sp1.name = sp2.name)
    (hd : sp1.description = sp2.description)
    (hperm : sp1.components.Perm sp2.components)
    (hnd : (sp1.components.map (fun c => c.id)).Nodup)
    (c1 c2 : Component) (hcp : CompFieldPerm c1 c2) :
    ComputeSpecHash sp1 = ComputeSpecHash sp2 ∧
    ComputeComponentHash c1 = ComputeComponentHash c2 ∧
    (∀ sp : PSpec, ComputeSpecHash sp = ComputeSpecHash sp) ∧
    (∀ c : Component, ComputeComponentHash c = ComputeComponentHash c) := by
  refine ⟨?_, ?_, fun _ => rfl, fun _ => rfl⟩
  · unfold ComputeSpecHash
    rw [hv, hn, hd]
    have hnd' :
        ((sp1.components.map (fun c => (c.id, c.kind))).map Prod.fst).Nodup := by
      rw [List.map_map]
      exact hnd
    rw [insertionSort_keyLt_eq (hperm.map (fun c => (c.id, c.kind))) hnd']
  · unfold ComputeComponentHash
    rw [componentSpecJSON_congr hcp, hcp.1, hcp.2.1]

/-- A two-component spec with distinct IDs. -/
def wSpecPerm1 : PSpec :=
  ⟨"1", "n", "d", [⟨"a", "http.server", {}⟩, ⟨"b", "usecase", {}⟩]⟩

/-- `wSpecPerm1` with its component list reversed. -/
def wSpecPerm2 : PSpec :=
  ⟨"1", "n", "d", [⟨"b", "usecase", {}⟩, ⟨"a", "http.server", {}⟩]⟩

/-- A usecase spec with a two-element preconditions list. -/
def wUCHashSpec1 : UsecaseSpec :=
  { bindsTo := "s:GET:/x", middleware := none, goal := "g", actor := "",
    preconditions := some ["p1", "p2"], acceptanceCriteria := none,
    postconditions := none, binding := none }

/-- `wUCHashSpec1` with the preconditions permuted. -/
def wUCHashSpec2 : UsecaseSpec :=
  { bindsTo := "s:GET:/x", middleware := none, goal := "g", actor := "",
    preconditions := some ["p2", "p1"], acceptanceCriteria := none,
    postconditions := none, binding := none }

/-- A usecase component carrying `wUCHashSpec1`. -/
def wUCHash1 : Component :=
  { id := "u", kind := Kind.usecase, dependencies := [], dependents := [],
    httpServer := none, middleware := none, postgres := none,
    usecase := some wUCHashSpec1 }

/-- A usecase component carrying `wUCHashSpec2`. -/
def wUCHash2 : Component :=
  { id := "u", kind := Kind.usecase, dependencies := [], dependents := [],
    httpServer := none, middleware := none, postgres := none,
    usecase := some wUCHashSpec2 }

/-- C6 witness: the amended invariance applied to a concrete spec with
distinct IDs and a concrete usecase with a permuted list field. -/
theorem cache_hash_order_independence_amended_witness :
    ComputeSpecHash wSpecPerm1 = ComputeSpecHash wSpecPerm2 ∧
    ComputeComponentHash wUCHash1 = ComputeComponentHash wUCHash2 ∧
    (∀ sp : PSpec, ComputeSpecHash sp = ComputeSpecHash sp) ∧
    (∀ c : Component, ComputeComponentHash c = ComputeComponentHash c) :=
  cache_hash_order_independence_amended wSpecPerm1 wSpecPerm2 rfl rfl rfl
    (by decide) (by decide) wUCHash1 wUCHash2
    ⟨rfl, rfl, trivial, trivial, rfl,
      ⟨rfl, rfl, rfl, trivial, by decide, trivial, trivial⟩⟩

/-- The first field is a nil slice, the second a present-but-empty one. -/
def absentVsEmpty (a b : Option (List String)) : Prop :=
  a = none ∧ b = some []

/-- Two components identical on id, kind, and every hashed field, except
that exactly one list-valued field is absent in the first and
present-but-empty in the second (all seven list-valued field positions
across the kinds are covered). -/
def OneListFieldAbsentVsEmpty (c1 c2 : Component) : Prop :=
  c1.id = c2.id ∧ c1.kind = c2.kind ∧
  ((∃ s1 s2, c1.kind = Kind.httpServer ∧ c1.httpServer = some s1 ∧
      c2.httpServer = some s2 ∧ s1.framework = s2.framework ∧
      s1.port = s2.port ∧ s1.openapi = s2.openapi ∧
      ((absentVsEmpty s1.middleware s2.middleware ∧
          s1.dependsOn = s2.dependsOn) ∨
        (s1.middleware = s2.middleware ∧
          absentVsEmpty s1.dependsOn s2.dependsOn))) ∨
    (∃ s1 s2, c1.kind = Kind.middleware ∧ c1.middleware = some s1 ∧
      c2.middleware = some s2 ∧ s1.provider = s2.provider ∧
      s1.config = s2.config ∧ s1.model = s2.model ∧
      s1.policy = s2.policy ∧
      absentVsEmpty s1.dependsOn s2.dependsOn) ∨
    (∃ u1 u2, c1.kind = Kind.usecase ∧ c1.usecase = some u1 ∧
      c2.usecase = some u2 ∧ u1.bindsTo = u2.bindsTo ∧
      u1.goal = u2.goal ∧ u1.actor = u2.actor ∧
      ((absentVsEmpty u1.middleware u2.middleware ∧
          u1.preconditions = u2.preconditions ∧
          u1.acceptanceCriteria = u2.acceptanceCriteria ∧
          u1.postconditions = u2.postconditions) ∨
        (u1.middleware = u2.middleware ∧
          absentVsEmpty u1.preconditions u2.preconditions ∧
          u1.acceptanceCriteria = u2.acceptanceCriteria ∧
          u1.postconditions = u2.postconditions) ∨
        (u1.middleware = u2.middleware ∧
          u1.preconditions = u2.preconditions ∧
          absentVsEmpty u1.acceptanceCriteria u2.acceptanceCriteria ∧
          u1.postconditions = u2.postconditions) ∨
        (u1.middleware = u2.middleware ∧
          u1.preconditions = u2.preconditions ∧
          u1.acceptanceCriteria = u2.acceptanceCriteria ∧
          absentVsEmpty u1.postconditions u2.postconditions))))

/-- C7: an absent list field hashes differently from a present-but-empty
one: the canonical encodings embed `null` versus `[]` at the same
position, so they (and hence the digests) differ. -/
theorem componentHash_absent_vs_empty (c1 c2 : Component)
    (h : OneListFieldAbsentVsEmpty c1 c2) :
    ComputeComponentHash c1 ≠ ComputeComponentHash c2 := by
  obtain ⟨hid, hk, hcase⟩ := h
  rcases hcase with ⟨s1, s2, hk1, h1, h2, hf, hp, ho, hfield⟩ |
    ⟨s1, s2, hk1, h1, h2, hpr, hc, hm, hpo, habs⟩ |
    ⟨u1, u2, hk1, h1, h2, hb, hg, ha, hfield⟩
  · have hk2 : c2.kind = Kind.httpServer := hk.symm.trans hk1
    unfold ComputeComponentHash componentSpecJSON
    rw [hid, hk1, hk2, h1, h2]
    dsimp only
    rw [hf, hp, ho]
    rcases hfield with ⟨habs, hdep⟩ | ⟨hmid, habs⟩
    · rw [habs.1, habs.2, hdep]
      intro heq
      have hlen := congrArg String.length heq
      simp only [String.length_append] at hlen
      rw [show (jsonStrings (sortedCopy none)).length = 4 from rfl,
        show (jsonStrings (sortedCopy (some []))).length = 2 from rfl] at hlen
      omega
    · rw [habs.1, habs.2, hmid]
      intro heq
      have hlen := congrArg String.length heq
      simp only [String.length_append] at hlen
      rw [show (jsonStrings (sortedCopy none)).length = 4 from rfl,
        show (jsonStrings (sortedCopy (some []))).length = 2 from rfl] at hlen
      omega
  · have hk2 : c2.kind = Kind.middleware := hk.symm.trans hk1
    unfold ComputeComponentHash componentSpecJSON
    rw [hid, hk1, hk2, h1, h2]
    dsimp only
    rw [hpr, hc, hm, hpo, habs.1, habs.2]
    intro heq
    have hlen := congrArg String.length heq
    simp only [String.length_append] at hlen
    rw [show (jsonStrings (sortedCopy none)).length = 4 from rfl,
      show (jsonStrings (sortedCopy (some []))).length = 2 from rfl] at hlen
    omega
  · have hk2 : c2.kind = Kind.usecase := hk.symm.trans hk1
    unfold ComputeComponentHash componentSpecJSON
    rw [hid, hk1, hk2, h1, h2]
    dsimp only
    rw [hb, hg, ha]
    rcases hfield with ⟨habs, he1, he2, he3⟩ | ⟨he1, habs, he2, he3⟩ |
      ⟨he1, he2, habs, he3⟩ | ⟨he1, he2, he3, habs⟩ <;>
      rw [habs.1, habs.2, he1, he2, he3] <;>
      intro heq <;>
      have hlen := congrArg String.length heq <;>
      simp only [String.length_append] at hlen <;>
      rw [show (jsonStrings (sortedCopy none)).length = 4 from rfl,
        show (jsonStrings (sortedCopy (some []))).length = 2 from rfl]
        at hlen <;>
      omega

/-- The usecase spec of the C7 witness, preconditions absent. -/
def wUCAbsentSpec : UsecaseSpec :=
  { bindsTo := "s:GET:/x", middleware := none, goal := "g", actor := "",
    preconditions := none, acceptanceCriteria := none,
    postconditions := none, binding := none }

/-- The usecase spec of the C7 witness, preconditions present but
empty. -/
def wUCEmptySpec : UsecaseSpec :=
  { bindsTo := "s:GET:/x", middleware := none, goal := "g", actor := "",
    preconditions := some [], acceptanceCriteria := none,
    postconditions := none, binding := none }

/-- A usecase component carrying `wUCAbsentSpec`. -/
def wUCAbsent : Component :=
  { id := "u", kind := Kind.usecase, dependencies := [], dependents := [],
    httpServer := none, middleware := none, postgres := none,
    usecase := some wUCAbsentSpec }

/-- A usecase component carrying `wUCEmptySpec`. -/
def wUCEmpty : Component :=
  { id := "u", kind := Kind.usecase, dependencies := [], dependents := [],
    httpServer := none, middleware := none, postgres := none,
    usecase := some wUCEmptySpec }

/-- C7 witness: a concrete usecase whose preconditions are absent versus
present-but-empty. -/
theorem componentHash_absent_vs_empty_witness :
    OneListFieldAbsentVsEmpty wUCAbsent wUCEmpty ∧
    ComputeComponentHash wUCAbsent ≠ ComputeComponentHash wUCEmpty :=
  have hh : OneListFieldAbsentVsEmpty wUCAbsent wUCEmpty :=
    ⟨rfl, rfl, Or.inr (Or.inr ⟨wUCAbsentSpec, wUCEmptySpec, rfl, rfl, rfl,
      rfl, rfl, rfl, Or.inr (Or.inl ⟨rfl, ⟨rfl, rfl⟩, rfl, rfl⟩)⟩)⟩
  ⟨hh, componentHash_absent_vs_empty wUCAbsent wUCEmpty hh⟩
